import Mathlib

/-!
# Verification of the ai_wargame rules and search engine

A shallow embedding of `src/ai_wargame.py` (the comp472 wargame): the unit and
coordinate data model, the board state, the move-legality engine
(`is_valid_move`), move application (`perform_move`), move generation
(`move_candidates` / `generate_valid_moves`), the heuristic evaluators
(`e0`, `e1`, `e2`) and the two game-tree searches (`random_move`, the plain
minimax, and `alphabeta`).

Python integers are modelled as `Int`; Python lists of cells as a total
function from coordinates to `Option Unit` (the source maintains a rectangular
`dim × dim` array whose accessors `get`/`set` bounds-check against
`options.dim`); Python's `float('inf')` sentinels and integer scores in the
searches as `WithBot (WithTop Int)`; the wall-clock readings
(`datetime.now() - start_time`) as an explicit rational parameter `elapsed`,
and the float literals `5.0` / `0.01` as exact rationals.  The trace-file and
statistics side effects carry no game-visible state and are omitted.
-/

namespace AiWargame

/-- Every unit type (`class UnitType(Enum)`). -/
inductive UnitType where
  | AI | Tech | Virus | Program | Firewall
deriving DecidableEq, Repr

/-- The enum ordinal of a unit type (`UnitType.value` in Python). -/
def UnitType.value : UnitType → Nat
  | .AI => 0
  | .Tech => 1
  | .Virus => 2
  | .Program => 3
  | .Firewall => 4

/-- The 2 players (`class Player(Enum)`). -/
inductive Player where
  | Attacker | Defender
deriving DecidableEq, Repr

/-- The next (other) player (`Player.next`). -/
def Player.next : Player → Player
  | .Attacker => .Defender
  | .Defender => .Attacker

/-- The heuristic selector (`class Heuristic(Enum)`). -/
inductive Heuristic where
  | E0 | E1 | E2
deriving DecidableEq, Repr

/-- A single piece (`@dataclass Unit`): owner, kind, health. -/
structure Unit where
  player : Player := .Attacker
  type : UnitType := .Program
  health : Int := 9
deriving DecidableEq, Repr

/-- Class variable `Unit.damage_table` (rows/columns in unit-type order). -/
def Unit.damage_table : List (List Int) :=
  [[3,3,3,3,1],
   [1,1,6,1,1],
   [9,6,1,6,1],
   [3,3,3,3,1],
   [1,1,1,1,1]]

/-- Class variable `Unit.repair_table` (rows/columns in unit-type order). -/
def Unit.repair_table : List (List Int) :=
  [[0,1,1,0,0],
   [3,0,0,3,3],
   [0,0,0,0,0],
   [0,0,0,0,0],
   [0,0,0,0,0]]

/-- The table lookup `table[a.value][b.value]` used by `perform_move`
(indices are always in range, so the default is never hit). -/
def tableEntry (table : List (List Int)) (a b : UnitType) : Int :=
  (table.getD a.value []).getD b.value 0

/-- `Unit.is_alive`. -/
def Unit.is_alive (u : Unit) : Bool := u.health > 0

/-- `Unit.mod_health`: add the delta, then clamp the health into `[0,9]`
(mutation of the unit object, modelled as returning the updated unit). -/
def Unit.mod_health (u : Unit) (health_delta : Int) : Unit :=
  let h := u.health + health_delta
  if h < 0 then { u with health := 0 }
  else if h > 9 then { u with health := 9 }
  else { u with health := h }

/-- A game cell coordinate (`@dataclass Coord`). -/
structure Coord where
  row : Int := 0
  col : Int := 0
deriving DecidableEq, Repr

/-- Python's `range(lo, hi)` as a list of integers. -/
def intRange (lo hi : Int) : List Int :=
  (List.range (hi - lo).toNat).map (fun (i : Nat) => lo + (i : Int))

/-- `Coord.iter_range`: the coordinates of the square of half-width `dist`
centered on `c`, in row-major order (`range(row-dist, row+1+dist)` nested over
`range(col-dist, col+1+dist)`). -/
def Coord.iter_range (c : Coord) (dist : Int) : List Coord :=
  (intRange (c.row - dist) (c.row + 1 + dist)).flatMap (fun r =>
    (intRange (c.col - dist) (c.col + 1 + dist)).map (fun k => Coord.mk r k))

/-- `Coord.iter_adjacent`: the four orthogonal neighbours, in source order. -/
def Coord.iter_adjacent (c : Coord) : List Coord :=
  [Coord.mk (c.row - 1) c.col, Coord.mk c.row (c.col - 1),
   Coord.mk (c.row + 1) c.col, Coord.mk c.row (c.col + 1)]

/-- The row label characters of the source. -/
def rowChars : List Char := "ABCDEFGHIJKLMNOPQRSTUVWXYZ".toList

/-- The column label characters of the source. -/
def colChars : List Char := "0123456789abcdef".toList

/-- `Coord.col_string`.  The source tests only `col < 16` before indexing;
a negative column would wrap or raise in Python, but every caller that is
modelled here passes an in-bounds coordinate, so we emit the same fallback
character there. -/
def Coord.col_string (c : Coord) : String :=
  if 0 ≤ c.col ∧ c.col < 16 then String.singleton (colChars.getD c.col.toNat '?')
  else "?"

/-- `Coord.row_string` (same remark as `Coord.col_string`). -/
def Coord.row_string (c : Coord) : String :=
  if 0 ≤ c.row ∧ c.row < 26 then String.singleton (rowChars.getD c.row.toNat '?')
  else "?"

/-- `Coord.to_string`. -/
def Coord.to_string (c : Coord) : String := c.row_string ++ c.col_string

/-- A game move or rectangular area (`@dataclass CoordPair`). -/
structure CoordPair where
  src : Coord := {}
  dst : Coord := {}
deriving DecidableEq, Repr

/-- `CoordPair.to_string`. -/
def CoordPair.to_string (p : CoordPair) : String :=
  p.src.to_string ++ " " ++ p.dst.to_string

/-- `CoordPair.iter_rectangle`: the cells of the inclusive rectangle, in
row-major order. -/
def CoordPair.iter_rectangle (p : CoordPair) : List Coord :=
  (intRange p.src.row (p.dst.row + 1)).flatMap (fun r =>
    (intRange p.src.col (p.dst.col + 1)).map (fun k => Coord.mk r k))

/-- `CoordPair.from_dim`. -/
def CoordPair.from_dim (dim : Int) : CoordPair :=
  CoordPair.mk (Coord.mk 0 0) (Coord.mk (dim - 1) (dim - 1))

/-- The game options (`@dataclass Options`); the fields the verified core
reads.  `max_depth`, `min_depth`, `randomize_moves`, `game_type` and `broker`
are never consulted by the legality engine, move application or the searches,
and are omitted.  `max_time` is a Python float, modelled as a rational. -/
structure Options where
  dim : Int := 5
  max_time : ℚ := 5
  alpha_beta : Bool := true
  max_turns : Option Int := some 100
  heuristic : Heuristic := .E0
deriving DecidableEq, Repr

/-- The game state (`@dataclass Game`).  The `dim × dim` array of optional
units is modelled as a total function on coordinates; the accessors below
reproduce the source's bounds checks against `options.dim`.  The trace file
and the statistics accumulator are side-effect-only and omitted. -/
structure Game where
  board : Coord → Option Unit
  next_player : Player := .Attacker
  turns_played : Int := 0
  options : Options := {}
  attacker_has_ai : Bool := true
  defender_has_ai : Bool := true

/-- `Game.is_valid_coord`. -/
def Game.is_valid_coord (g : Game) (c : Coord) : Bool :=
  if c.row < 0 ∨ c.row ≥ g.options.dim ∨ c.col < 0 ∨ c.col ≥ g.options.dim then
    false
  else true

/-- `Game.is_empty` (raw cell read; the source documents that the coordinate
must already be valid). -/
def Game.is_empty (g : Game) (c : Coord) : Bool := (g.board c).isNone

/-- `Game.get`. -/
def Game.get (g : Game) (c : Coord) : Option Unit :=
  if g.is_valid_coord c then g.board c else none

/-- `Game.set`. -/
def Game.set (g : Game) (c : Coord) (u : Option Unit) : Game :=
  if g.is_valid_coord c then
    { g with board := fun c2 => if c2 = c then u else g.board c2 }
  else g

/-- `Game.remove_dead`: drop the unit at `c` if its health is no longer
positive, flipping the owner's has-AI flag when the unit is an AI. -/
def Game.remove_dead (g : Game) (c : Coord) : Game :=
  match g.get c with
  | some u =>
    if ¬ u.is_alive then
      let g1 := g.set c none
      if u.type = UnitType.AI then
        if u.player = Player.Attacker then { g1 with attacker_has_ai := false }
        else { g1 with defender_has_ai := false }
      else g1
    else g
  | none => g

/-- `Game.mod_health`: clamp-modify the health of the unit at `c` (if any),
then remove it if dead. -/
def Game.mod_health (g : Game) (c : Coord) (health_delta : Int) : Game :=
  match g.get c with
  | some target => (g.set c (some (target.mod_health health_delta))).remove_dead c
  | none => g

/-- The orthogonal-adjacency test used (twice, verbatim) inside
`is_valid_move`: same column and rows one apart, or same row and columns one
apart (`abs(...) == 1` is `Int.natAbs ... = 1`). -/
def adjTest (a b : Coord) : Bool :=
  (a.col = b.col ∧ (a.row - b.row).natAbs = 1) ∨
  (a.row = b.row ∧ (a.col - b.col).natAbs = 1)

/-- The engaged-in-combat loop inside `is_valid_move`: some orthogonally
adjacent, in-bounds, occupied cell holds a unit of the other side. -/
def Game.combatAdjacent (g : Game) (c0 : Coord) : Bool :=
  c0.iter_adjacent.any (fun c =>
    g.is_valid_coord c && !g.is_empty c &&
      (match g.get c with
       | some u => u.player ≠ g.next_player
       | none => false))

/-- `Game.is_valid_move`: the move-legality engine, transcribed branch by
branch from the source. -/
def Game.is_valid_move (g : Game) (coords : CoordPair) : Bool :=
  if ¬ g.is_valid_coord coords.src ∨ ¬ g.is_valid_coord coords.dst then false
  else
    match g.get coords.src with
    | none => false
    | some srcUnit =>
      if srcUnit.player ≠ g.next_player then false
      else
        -- Check self-destruct
        if coords.src = coords.dst then true
        else
          match g.get coords.dst with
          | some dstUnit =>
            if dstUnit.player ≠ g.next_player then
              -- Check for attacking
              if adjTest coords.src coords.dst then true else false
            else
              -- Check for repairing
              if adjTest coords.src coords.dst then
                if dstUnit.health = 9 then false
                else if srcUnit.type = UnitType.AI ∧
                    (dstUnit.type = UnitType.Virus ∨ dstUnit.type = UnitType.Tech) then
                  true
                else if srcUnit.type = UnitType.Tech ∧
                    (dstUnit.type = UnitType.AI ∨ dstUnit.type = UnitType.Firewall ∨
                     dstUnit.type = UnitType.Program) then
                  true
                else false
              else false
          | none =>
            -- Check general movement
            if srcUnit.player = Player.Defender ∧
                (srcUnit.type = UnitType.AI ∨ srcUnit.type = UnitType.Firewall ∨
                 srcUnit.type = UnitType.Program) then
              if g.combatAdjacent coords.src then false
              else if coords.dst = Coord.mk (coords.src.row + 1) coords.src.col ∨
                  coords.dst = Coord.mk coords.src.row (coords.src.col + 1) then
                true
              else false
            else if srcUnit.player = Player.Attacker ∧
                (srcUnit.type = UnitType.AI ∨ srcUnit.type = UnitType.Firewall ∨
                 srcUnit.type = UnitType.Program) then
              if g.combatAdjacent coords.src then false
              else if coords.dst = Coord.mk (coords.src.row - 1) coords.src.col ∨
                  coords.dst = Coord.mk coords.src.row (coords.src.col - 1) then
                true
              else false
            else
              if coords.dst = Coord.mk (coords.src.row - 1) coords.src.col ∨
                  coords.dst = Coord.mk coords.src.row (coords.src.col - 1) ∨
                  coords.dst = Coord.mk (coords.src.row + 1) coords.src.col ∨
                  coords.dst = Coord.mk coords.src.row (coords.src.col + 1) then
                true
              else false

/-- One step of the self-destruct loop in `perform_move`: damage the cell by 2
and add 2 to the reported total if it is a valid, occupied cell. -/
def selfDestructStep (p : Game × Int) (c : Coord) : Game × Int :=
  if p.1.is_valid_coord c ∧ ¬ p.1.is_empty c then
    (p.1.mod_health c (-2), p.2 + 2)
  else p

/-- `Game.perform_move`: validate, then run exactly one of the four actions
(move / self-destruct / repair / attack), returning the updated state, the
success flag and the description string of the source.  The inner `none` arm
is unreachable: a valid move always has an occupied source. -/
def Game.perform_move (g : Game) (coords : CoordPair) : Game × Bool × String :=
  if g.is_valid_move coords then
    match g.get coords.dst with
    | none =>
      -- Movement: the destination coordinate is not occupied by any unit
      let g1 := g.set coords.dst (g.get coords.src)
      let g2 := g1.set coords.src none
      (g2, true, "move from " ++ coords.src.to_string ++ " to " ++ coords.dst.to_string)
    | some dstUnit =>
      if coords.src = coords.dst then
        -- Self-destruct: the source and destination coordinates are the same
        let g1 := g.mod_health coords.src (-9)
        let (g2, total_damage) := (coords.src.iter_range 1).foldl selfDestructStep (g1, 0)
        (g2, true, "self-destruct at " ++ coords.src.to_string ++
          "\nself-destructed for " ++ toString total_damage ++ " total damage")
      else
        match g.get coords.src with
        | some srcUnit =>
          if srcUnit.player = dstUnit.player then
            -- Repair: the source and destination belong to the same players
            let repair_amount := tableEntry Unit.repair_table srcUnit.type dstUnit.type
            (g.mod_health coords.dst repair_amount, true,
             "repair from " ++ coords.src.to_string ++ " to " ++ coords.dst.to_string ++
               "\nrepaired " ++ toString repair_amount ++ " health points")
          else
            -- Attack: the source and destination belong to opposing players
            let dst_dmg := tableEntry Unit.damage_table srcUnit.type dstUnit.type
            let src_dmg := tableEntry Unit.damage_table dstUnit.type srcUnit.type
            let ga := g.mod_health coords.dst (-dst_dmg)
            let gb := ga.mod_health coords.src (-src_dmg)
            (gb, true,
             "attack from " ++ coords.src.to_string ++ " to " ++ coords.dst.to_string ++
               "\ncombat damage: to source =  " ++ toString src_dmg ++
               ", to target = " ++ toString dst_dmg)
        | none => (g, false, "invalid move")
  else (g, false, "invalid move")

/-- The first guard of `has_winner`: `max_turns is not None and
turns_played >= max_turns`. -/
def Game.turnLimitReached (g : Game) : Bool :=
  match g.options.max_turns with
  | some m => g.turns_played ≥ m
  | none => false

/-- `Game.has_winner`: Defender wins at the turn limit; otherwise the side
whose opponent lost its AI wins, the attacker's loss taking priority. -/
def Game.has_winner (g : Game) : Option Player :=
  if g.turnLimitReached then
    some Player.Defender
  else if g.attacker_has_ai then
    if g.defender_has_ai then none else some Player.Attacker
  else some Player.Defender

/-- `Game.is_finished`. -/
def Game.is_finished (g : Game) : Bool := (g.has_winner).isSome

/-- `Game.player_units`: the `(coord, unit)` pairs of a player's units, in
board scan (row-major) order. -/
def Game.player_units (g : Game) (player : Player) : List (Coord × Unit) :=
  (CoordPair.from_dim g.options.dim).iter_rectangle.filterMap (fun c =>
    match g.get c with
    | some u => if u.player = player then some (c, u) else none
    | none => none)

/-- `Game.move_candidates`: for each unit of the side to move, the adjacent
targets passing the legality engine, then the self-destruct pair,
unconditionally. -/
def Game.move_candidates (g : Game) : List CoordPair :=
  (g.player_units g.next_player).flatMap (fun su =>
    ((su.1.iter_adjacent.filter (fun dst => g.is_valid_move (CoordPair.mk su.1 dst))).map
      (fun dst => CoordPair.mk su.1 dst)) ++ [CoordPair.mk su.1 su.1])

/-- `Game.generate_valid_moves`: re-filter the candidates through the
legality engine. -/
def Game.generate_valid_moves (g : Game) : List CoordPair :=
  g.move_candidates.filter (fun mv => g.is_valid_move mv)

/-- `MAX_HEURISTIC_SCORE`. -/
def MAX_HEURISTIC_SCORE : Int := 2000000000

/-- `MIN_HEURISTIC_SCORE`. -/
def MIN_HEURISTIC_SCORE : Int := -2000000000

/-- The per-type weights of heuristic `e0` (`unit_values`). -/
def e0Values : UnitType → Int
  | .AI => 9999
  | .Tech => 3
  | .Virus => 3
  | .Program => 3
  | .Firewall => 3

/-- The per-type weights of heuristic `e1` (`unit_values`). -/
def e1Values : UnitType → Int
  | .AI => 9999
  | .Tech => 500
  | .Virus => 500
  | .Program => 300
  | .Firewall => 50

/-- The unit types in enum iteration order (`for unit_type in UnitType`). -/
def unitTypes : List UnitType := [.AI, .Tech, .Virus, .Program, .Firewall]

/-- The per-player per-type counters built by the counting loops of `e0` and
`e1`: the number of board cells holding a unit of this player and type. -/
def Game.countType (g : Game) (p : Player) (t : UnitType) : Int :=
  (((CoordPair.from_dim g.options.dim).iter_rectangle).filter (fun c =>
    match g.get c with
    | some u => u.player = p ∧ u.type = t
    | none => false)).length

/-- Heuristic `e0`: weighted unit counts, attacker minus defender. -/
def Game.e0 (g : Game) : Int :=
  (unitTypes.map (fun t => e0Values t * g.countType Player.Attacker t)).sum -
  (unitTypes.map (fun t => e0Values t * g.countType Player.Defender t)).sum

/-- Heuristic `e1`: weighted unit counts, attacker minus defender. -/
def Game.e1 (g : Game) : Int :=
  (unitTypes.map (fun t => e1Values t * g.countType Player.Attacker t)).sum -
  (unitTypes.map (fun t => e1Values t * g.countType Player.Defender t)).sum

/-- One step of the accumulation loop of heuristic `e2`. -/
def e2Step (g : Game) (acc : Int) (c : Coord) : Int :=
  match g.get c with
  | some u =>
    if u.player = Player.Attacker then
      if u.type = UnitType.AI then acc + u.health * 9999 else acc + u.health
    else
      if u.type = UnitType.AI then acc - u.health * 9999 else acc - u.health
  | none => acc

/-- Heuristic `e2`: signed unit health totals, AI health weighted by 9999. -/
def Game.e2 (g : Game) : Int :=
  ((CoordPair.from_dim g.options.dim).iter_rectangle).foldl (e2Step g) 0

/-- `Game.e`: dispatch on the selected heuristic (`E1`, `E2`, else `e0`). -/
def Game.e (g : Game) : Int :=
  if g.options.heuristic = Heuristic.E1 then g.e1
  else if g.options.heuristic = Heuristic.E2 then g.e2
  else g.e0

/-- The score domain of the searches: the heuristic integers together with
Python's `-float('inf')` (`⊥`) and `float('inf')` (`⊤`) loop sentinels. -/
abbrev Score := WithBot (WithTop Int)

/-- An integer heuristic value as a score. -/
def ofInt (n : Int) : Score := ((n : WithTop Int) : WithBot (WithTop Int))

/-- `Game.setNextPlayer`: the `current_game.next_player = ...` assignment the
searches make before generating moves. -/
def Game.setNextPlayer (g : Game) (p : Player) : Game := { g with next_player := p }

/-- The maximizing loop of `random_move`: track the strictly best child score
and its move. -/
def rmMaxLoop (child : CoordPair → Score) :
    List CoordPair → Score → Option CoordPair → Score × Option CoordPair
  | [], max_eval, best_move => (max_eval, best_move)
  | mv :: rest, max_eval, best_move =>
    let ev := child mv
    if max_eval < ev then rmMaxLoop child rest ev (some mv)
    else rmMaxLoop child rest max_eval best_move

/-- The minimizing loop of `random_move`. -/
def rmMinLoop (child : CoordPair → Score) :
    List CoordPair → Score → Option CoordPair → Score × Option CoordPair
  | [], min_eval, best_move => (min_eval, best_move)
  | mv :: rest, min_eval, best_move =>
    let ev := child mv
    if ev < min_eval then rmMinLoop child rest ev (some mv)
    else rmMinLoop child rest min_eval best_move

/-- The maximizing loop of `alphabeta`: like `rmMaxLoop` but raising `alpha`
to the running best and breaking once the best reaches `beta`. -/
def abMaxLoop (child : Score → CoordPair → Score) (beta : Score) :
    List CoordPair → Score → Score → Option CoordPair → Score × Option CoordPair
  | [], _, max_eval, best_move => (max_eval, best_move)
  | mv :: rest, alpha, max_eval, best_move =>
    let ev := child alpha mv
    let max_eval2 := if max_eval < ev then ev else max_eval
    let best_move2 := if max_eval < ev then some mv else best_move
    let alpha2 := max alpha max_eval2
    if beta ≤ max_eval2 then (max_eval2, best_move2)
    else abMaxLoop child beta rest alpha2 max_eval2 best_move2

/-- The minimizing loop of `alphabeta`. -/
def abMinLoop (child : Score → CoordPair → Score) (alpha : Score) :
    List CoordPair → Score → Score → Option CoordPair → Score × Option CoordPair
  | [], _, min_eval, best_move => (min_eval, best_move)
  | mv :: rest, beta, min_eval, best_move =>
    let ev := child beta mv
    let min_eval2 := if ev < min_eval then ev else min_eval
    let best_move2 := if ev < min_eval then some mv else best_move
    let beta2 := min beta min_eval2
    if min_eval2 ≤ alpha then (min_eval2, best_move2)
    else abMinLoop child alpha rest beta2 min_eval2 best_move2

/-- The leaf test shared by both searches: the receiver's game is over, the
remaining depth is 0, or the clock reading has come within 0.01s of the
receiver's time budget.  Note the source consults `self` (the game object the
method was invoked on, i.e. the parent snapshot), not `current_game`. -/
def leafTest (self : Game) (depth : Nat) (elapsed : ℚ) : Prop :=
  self.is_finished = true ∨ depth = 0 ∨ self.options.max_time - 1/100 ≤ elapsed

instance (self : Game) (depth : Nat) (elapsed : ℚ) :
    Decidable (leafTest self depth elapsed) := by
  unfold leafTest; infer_instance

/-- `Game.random_move`: the plain minimax search.  `self` is the receiver
(the parent snapshot), `cur` the snapshot being evaluated, `depth` the
remaining depth (always a non-negative Python int here, hence `Nat`), and
`elapsed` models the wall-clock reading `(datetime.now() - start_time)`,
which a pure embedding cannot advance between nodes.  The statistics update
and the duplicated elapsed-time computation have no game-visible effect. -/
def random_move (self cur : Game) (depth : Nat) (maximize : Bool) (elapsed : ℚ) :
    Score × Option CoordPair × Nat :=
  if leafTest self depth elapsed then (ofInt cur.e, none, depth)
  else
    -- the recursion is phrased structurally on `depth` so that the kernel can
    -- evaluate it; the `0` arm is unreachable (`depth = 0` is a leaf) and the
    -- successor arm recurses at `d = depth - 1` exactly as the source does
    match depth with
    | 0 => (ofInt cur.e, none, depth)
    | d + 1 =>
      if maximize then
        let cur2 := cur.setNextPlayer Player.Attacker
        let r := rmMaxLoop
          (fun mv => (random_move cur2 (cur2.perform_move mv).1 d false elapsed).1)
          cur2.generate_valid_moves ⊥ none
        (r.1, r.2, depth)
      else
        let cur2 := cur.setNextPlayer Player.Defender
        let r := rmMinLoop
          (fun mv => (random_move cur2 (cur2.perform_move mv).1 d true elapsed).1)
          cur2.generate_valid_moves ⊤ none
        (r.1, r.2, depth)

/-- `Game.alphabeta`: minimax with alpha-beta pruning, same conventions as
`random_move`. -/
def alphabeta (self cur : Game) (depth : Nat) (alpha beta : Score) (maximize : Bool)
    (elapsed : ℚ) : Score × Option CoordPair × Nat :=
  if leafTest self depth elapsed then (ofInt cur.e, none, depth)
  else
    -- structural phrasing of the `depth - 1` recursion, as in `random_move`
    match depth with
    | 0 => (ofInt cur.e, none, depth)
    | d + 1 =>
      if maximize then
        let cur2 := cur.setNextPlayer Player.Attacker
        let r := abMaxLoop
          (fun a mv => (alphabeta cur2 (cur2.perform_move mv).1 d a beta false elapsed).1)
          beta cur2.generate_valid_moves alpha ⊥ none
        (r.1, r.2, depth)
      else
        let cur2 := cur.setNextPlayer Player.Defender
        let r := abMinLoop
          (fun b mv => (alphabeta cur2 (cur2.perform_move mv).1 d alpha b true elapsed).1)
          alpha cur2.generate_valid_moves beta ⊤ none
        (r.1, r.2, depth)

/-! ## Specification-side notions used to state the claims -/

/-- The clamp to `[0,9]` of the data model (§3 of the spec). -/
def clamp09 (n : Int) : Int := if n < 0 then 0 else if n > 9 then 9 else n

/-- The successive health values of a unit under a sequence of `mod_health`
deltas. -/
def healthSeq (u : Unit) : List Int → List Int
  | [] => []
  | d :: ds => (u.mod_health d).health :: healthSeq (u.mod_health d) ds

/-- The board-level health invariant of the spec: every unit present on the
board has health in `[1,9]`. -/
def boardHealthInv (g : Game) : Prop :=
  ∀ c u, g.get c = some u → 1 ≤ u.health ∧ u.health ≤ 9

/-- Every unit on the board has health in `[0,9]` (the unit-level range of the
data model). -/
def healthInv09 (g : Game) : Prop :=
  ∀ c u, g.get c = some u → 0 ≤ u.health ∧ u.health ≤ 9

/-- A board state within the documented data model: unit healths in `[0,9]`
and a (generously) bounded board dimension — the program itself always plays
with `dim = 5`.  This keeps every heuristic value far inside
`(MIN_HEURISTIC_SCORE, MAX_HEURISTIC_SCORE)`. -/
def StateBounded (g : Game) : Prop := healthInv09 g ∧ g.options.dim ≤ 100

/-- Scores produced by the searches on bounded states: a loop sentinel, or a
heuristic value of magnitude at most `10^9`. -/
def ScOK (s : Score) : Prop :=
  s = ⊥ ∨ s = ⊤ ∨ ∃ n : Int, s = ofInt n ∧ -1000000000 ≤ n ∧ n ≤ 1000000000

/-- The exact maximum of the child values together with an accumulator: the
value semantics of the maximizing loops. -/
def foldMax (val : CoordPair → Score) (l : List CoordPair) (acc : Score) : Score :=
  l.foldl (fun a mv => max a (val mv)) acc

/-- The exact minimum of the child values together with an accumulator. -/
def foldMin (val : CoordPair → Score) (l : List CoordPair) (acc : Score) : Score :=
  l.foldl (fun a mv => min a (val mv)) acc

/-! ## Concrete states used by the witnesses and counterexamples -/

/-- The everywhere-empty cell assignment. -/
def emptyBoard : Coord → Option Unit := fun _ => none

/-- An empty in-progress game with the default options. -/
def emptyGame : Game := { board := emptyBoard }

/-- An in-progress game whose attacker has already lost its AI flag. -/
def gameNoAtkAI : Game := { board := emptyBoard, attacker_has_ai := false }

/-- A 2×2 game: attacker Virus at (0,0) facing the defender AI at (0,1). -/
def gameAttack : Game :=
  { board := fun c =>
      if c = Coord.mk 0 0 then some (Unit.mk .Attacker .Virus 9)
      else if c = Coord.mk 0 1 then some (Unit.mk .Defender .AI 9)
      else none,
    options := { dim := 2 } }

/-- A 2×2 game: attacker Virus at (0,0) with defender Techs at (0,1) (health 1)
and (1,1) (health 9). -/
def gameSelfDestruct : Game :=
  { board := fun c =>
      if c = Coord.mk 0 0 then some (Unit.mk .Attacker .Virus 9)
      else if c = Coord.mk 0 1 then some (Unit.mk .Defender .Tech 1)
      else if c = Coord.mk 1 1 then some (Unit.mk .Defender .Tech 9)
      else none,
    options := { dim := 2 } }

/-- A 2×2 game with a lone defender Program at (0,0), defender to move. -/
def gameLoneProgram : Game :=
  { board := fun c =>
      if c = Coord.mk 0 0 then some (Unit.mk .Defender .Program 9) else none,
    next_player := .Defender,
    options := { dim := 2 } }

/-- A 2×2 game with a lone attacker Virus at (0,0). -/
def gameLoneVirus : Game :=
  { board := fun c =>
      if c = Coord.mk 0 0 then some (Unit.mk .Attacker .Virus 9) else none,
    options := { dim := 2 } }

/-- A 2×2 game: defender Tech at (0,0) next to the defender AI at (0,1) with
health 5, defender to move. -/
def gameRepair : Game :=
  { board := fun c =>
      if c = Coord.mk 0 0 then some (Unit.mk .Defender .Tech 9)
      else if c = Coord.mk 0 1 then some (Unit.mk .Defender .AI 5)
      else none,
    next_player := .Defender,
    options := { dim := 2 } }

/-- A finished 1×1 snapshot: the attacker still owns a Virus but its has-AI
flag is down, so `has_winner` is the Defender and the game is over. -/
def gameOverSnapshot : Game :=
  { board := fun c =>
      if c = Coord.mk 0 0 then some (Unit.mk .Attacker .Virus 9) else none,
    options := { dim := 1 },
    attacker_has_ai := false }

/-! ## Basic lemmas about the board accessors -/

lemma get_some_valid {g : Game} {c : Coord} {u : Unit} (h : g.get c = some u) :
    g.is_valid_coord c = true := by
  unfold Game.get at h
  split at h
  · assumption
  · simp at h

lemma get_eq_board {g : Game} {c : Coord} (h : g.is_valid_coord c = true) :
    g.get c = g.board c := by
  unfold Game.get
  rw [h]
  simp

lemma set_options (g : Game) (c : Coord) (u : Option Unit) :
    (g.set c u).options = g.options := by
  unfold Game.set
  split <;> rfl

lemma set_next_player (g : Game) (c : Coord) (u : Option Unit) :
    (g.set c u).next_player = g.next_player := by
  unfold Game.set
  split <;> rfl

lemma set_valid (g : Game) (c : Coord) (u : Option Unit) (c2 : Coord) :
    (g.set c u).is_valid_coord c2 = g.is_valid_coord c2 := by
  unfold Game.is_valid_coord
  rw [set_options]

lemma set_board_same {g : Game} {c : Coord} (u : Option Unit)
    (h : g.is_valid_coord c = true) : (g.set c u).board c = u := by
  unfold Game.set
  rw [h]
  simp

lemma set_board_other {g : Game} {c : Coord} (u : Option Unit) {c2 : Coord}
    (h : c2 ≠ c) : (g.set c u).board c2 = g.board c2 := by
  unfold Game.set
  split
  · simp [h]
  · rfl

lemma get_set_same {g : Game} {c : Coord} (u : Option Unit)
    (h : g.is_valid_coord c = true) : (g.set c u).get c = u := by
  rw [get_eq_board (by rw [set_valid]; exact h), set_board_same u h]

lemma get_set_other {g : Game} {c : Coord} (u : Option Unit) {c2 : Coord}
    (h : c2 ≠ c) : (g.set c u).get c2 = g.get c2 := by
  unfold Game.get
  rw [set_valid, set_board_other u h]

lemma clamp09_nonneg (n : Int) : 0 ≤ clamp09 n := by
  unfold clamp09
  split
  · omega
  · split <;> omega

lemma clamp09_le_nine (n : Int) : clamp09 n ≤ 9 := by
  unfold clamp09
  split
  · omega
  · split <;> omega

lemma unit_mod_health_health (u : Unit) (d : Int) :
    (u.mod_health d).health = clamp09 (u.health + d) := by
  unfold Unit.mod_health clamp09
  simp only []
  split
  · rfl
  · split <;> rfl

lemma unit_mod_health_player (u : Unit) (d : Int) :
    (u.mod_health d).player = u.player := by
  unfold Unit.mod_health
  simp only []
  split
  · rfl
  · split <;> rfl

lemma unit_mod_health_type (u : Unit) (d : Int) :
    (u.mod_health d).type = u.type := by
  unfold Unit.mod_health
  simp only []
  split
  · rfl
  · split <;> rfl

lemma unit_mod_health_eq (u : Unit) (d : Int) :
    u.mod_health d = { u with health := clamp09 (u.health + d) } := by
  unfold Unit.mod_health clamp09
  simp only []
  split
  · rfl
  · split <;> rfl

lemma unit_mod_health_bounds (u : Unit) (d : Int) :
    0 ≤ (u.mod_health d).health ∧ (u.mod_health d).health ≤ 9 := by
  rw [unit_mod_health_health]
  exact ⟨clamp09_nonneg _, clamp09_le_nine _⟩

lemma remove_dead_options (g : Game) (c : Coord) :
    (g.remove_dead c).options = g.options := by
  unfold Game.remove_dead
  split
  · split
    · split
      · split <;> simp [set_options]
      · simp [set_options]
    · rfl
  · rfl

lemma remove_dead_valid (g : Game) (c : Coord) (c2 : Coord) :
    (g.remove_dead c).is_valid_coord c2 = g.is_valid_coord c2 := by
  unfold Game.is_valid_coord
  rw [remove_dead_options]

lemma remove_dead_board_other (g : Game) (c : Coord) {c2 : Coord} (h : c2 ≠ c) :
    (g.remove_dead c).board c2 = g.board c2 := by
  unfold Game.remove_dead
  split
  · split
    · split
      · split <;> simp [set_board_other _ h]
      · simp [set_board_other _ h]
    · rfl
  · rfl

lemma remove_dead_get_other (g : Game) (c : Coord) {c2 : Coord} (h : c2 ≠ c) :
    (g.remove_dead c).get c2 = g.get c2 := by
  unfold Game.get
  rw [remove_dead_valid, remove_dead_board_other g c h]

lemma remove_dead_get_self (g : Game) (c : Coord) :
    (g.remove_dead c).get c =
      match g.get c with
      | some u => if u.is_alive then some u else none
      | none => none := by
  rcases hu : g.get c with _ | u
  · unfold Game.remove_dead
    rw [hu]
    exact hu
  · have hv := get_some_valid hu
    unfold Game.remove_dead
    rw [hu]
    by_cases ha : u.is_alive
    · simp [ha, hu]
    · simp only [ha, not_false_eq_true, if_true, Bool.false_eq_true, if_false]
      have hset : (g.set c none).get c = none := get_set_same none hv
      split
      · split <;> simpa [Game.get, Game.is_valid_coord] using hset
      · exact hset

lemma mod_health_options (g : Game) (c : Coord) (d : Int) :
    (g.mod_health c d).options = g.options := by
  unfold Game.mod_health
  split
  · rw [remove_dead_options, set_options]
  · rfl

lemma mod_health_valid (g : Game) (c : Coord) (d : Int) (c2 : Coord) :
    (g.mod_health c d).is_valid_coord c2 = g.is_valid_coord c2 := by
  unfold Game.is_valid_coord
  rw [mod_health_options]

lemma mod_health_board_other (g : Game) (c : Coord) (d : Int) {c2 : Coord} (h : c2 ≠ c) :
    (g.mod_health c d).board c2 = g.board c2 := by
  unfold Game.mod_health
  split
  · rw [remove_dead_board_other _ _ h, set_board_other _ h]
  · rfl

lemma mod_health_get_other (g : Game) (c : Coord) (d : Int) {c2 : Coord} (h : c2 ≠ c) :
    (g.mod_health c d).get c2 = g.get c2 := by
  unfold Game.get
  rw [mod_health_valid, mod_health_board_other g c d h]

lemma mod_health_get_self (g : Game) (c : Coord) (d : Int) :
    (g.mod_health c d).get c =
      match g.get c with
      | some u =>
        if (u.mod_health d).health ≤ 0 then none else some (u.mod_health d)
      | none => none := by
  rcases hu : g.get c with _ | u
  · unfold Game.mod_health
    rw [hu]
    exact hu
  · have hv := get_some_valid hu
    unfold Game.mod_health
    rw [hu]
    simp only []
    have hget : (g.set c (some (u.mod_health d))).get c = some (u.mod_health d) :=
      get_set_same _ hv
    rw [remove_dead_get_self, hget]
    unfold Unit.is_alive
    by_cases hz : (u.mod_health d).health ≤ 0
    · simp [hz]
    · simp [hz]

/-! ## C10: losing the attacker AI decides the game for the Defender -/

/-- C10: for every game state whose attacker has-AI flag is false, provided
the turn limit has not already decided the game, `has_winner` returns the
Defender — regardless of the defender's has-AI flag. -/
theorem C10_attacker_ai_lost_defender_wins (g : Game)
    (hAI : g.attacker_has_ai = false)
    (hTurn : match g.options.max_turns with
             | some m => g.turns_played < m
             | none => True) :
    g.has_winner = some Player.Defender := by
  have hlim : g.turnLimitReached = false := by
    unfold Game.turnLimitReached
    rcases hm : g.options.max_turns with _ | m
    · rfl
    · rw [hm] at hTurn
      simp only [ge_iff_le, decide_eq_false_iff_not, not_le]
      exact hTurn
  unfold Game.has_winner
  rw [hlim, hAI]
  simp

/-- Witness for C10 at a concrete state. -/
theorem C10_attacker_ai_lost_defender_wins_witness :
    gameNoAtkAI.attacker_has_ai = false ∧
    gameNoAtkAI.has_winner = some Player.Defender :=
  ⟨rfl, C10_attacker_ai_lost_defender_wins gameNoAtkAI rfl (by norm_num : (0:Int) < 100)⟩

/-! ## C8: rejected moves fail without mutating the state -/

/-- C8: for every state and every pair the legality engine rejects,
`perform_move` fails with the description "invalid move" and returns the game
state unchanged (board, next player, turn counter and both has-AI flags). -/
theorem C8_invalid_move_is_noop (g : Game) (m : CoordPair)
    (h : g.is_valid_move m = false) :
    g.perform_move m = (g, false, "invalid move") := by
  unfold Game.perform_move
  rw [h]
  simp

/-- Witness for C8: moving from an empty square of the empty game. -/
theorem C8_invalid_move_is_noop_witness :
    emptyGame.is_valid_move (CoordPair.mk (Coord.mk 0 0) (Coord.mk 0 1)) = false ∧
    emptyGame.perform_move (CoordPair.mk (Coord.mk 0 0) (Coord.mk 0 1)) =
      (emptyGame, false, "invalid move") :=
  ⟨by decide,
   C8_invalid_move_is_noop emptyGame (CoordPair.mk (Coord.mk 0 0) (Coord.mk 0 1)) (by decide)⟩

/-! ## C9: health stays in range, units at health 0 are removed -/

/-- C9: unit health starting in `[0,9]` stays in `[0,9]` after every
`mod_health` call of a sequence; and at the board level the invariant
"every unit present has health in `[1,9]`" is preserved by the board-level
`mod_health` (which removes a unit whose health reaches 0). -/
theorem C9_health_always_clamped :
    (∀ (u : Unit) (ds : List Int), 0 ≤ u.health → u.health ≤ 9 →
      ∀ x ∈ healthSeq u ds, 0 ≤ x ∧ x ≤ 9) ∧
    (∀ (g : Game) (c : Coord) (d : Int), boardHealthInv g →
      boardHealthInv (g.mod_health c d)) := by
  constructor
  · intro u ds
    induction ds generalizing u with
    | nil =>
      intro _ _ x hx
      simp [healthSeq] at hx
    | cons d ds ih =>
      intro _ _ x hx
      rw [healthSeq] at hx
      rcases List.mem_cons.mp hx with h | h
      · subst h
        exact unit_mod_health_bounds u d
      · exact ih (u.mod_health d) (unit_mod_health_bounds u d).1
          (unit_mod_health_bounds u d).2 x h
  · intro g c d hinv c2 u2 h2
    by_cases hc : c2 = c
    · subst hc
      rw [mod_health_get_self] at h2
      rcases hu : g.get c2 with _ | u
      · rw [hu] at h2
        simp at h2
      · rw [hu] at h2
        by_cases hz : (u.mod_health d).health ≤ 0
        · simp [hz] at h2
        · simp only [hz, if_false] at h2
          have h2e : u2 = u.mod_health d := by
            simpa using h2.symm
          subst h2e
          have hb := unit_mod_health_bounds u d
          omega
    · rw [mod_health_get_other g c d hc] at h2
      exact hinv c2 u2 h2

/-- Witness for C9 at a concrete unit and a concrete board. -/
theorem C9_health_always_clamped_witness :
    (0 ≤ (Unit.mk .Attacker .Program 5).health ∧ (Unit.mk .Attacker .Program 5).health ≤ 9) ∧
    (0 ≤ (0 : Int) ∧ (0 : Int) ≤ 9) ∧
    boardHealthInv (emptyGame.mod_health (Coord.mk 0 0) (-3)) :=
  ⟨by decide,
   C9_health_always_clamped.1 (Unit.mk .Attacker .Program 5) [-7, 3]
     (by decide) (by decide) 0 (by decide),
   C9_health_always_clamped.2 emptyGame (Coord.mk 0 0) (-3) (fun c u h => by
     simp [emptyGame, emptyBoard, Game.get] at h)⟩

/-! ## C4: attacks damage both sides in one call -/

lemma attack_src_ne_dst {g : Game} {m : CoordPair} {su du : Unit}
    (hs : g.get m.src = some su) (hsp : su.player = g.next_player)
    (hd : g.get m.dst = some du) (hdp : du.player ≠ g.next_player) :
    m.src ≠ m.dst := by
  intro he
  rw [he, hd] at hs
  have hsd : du = su := by injection hs
  exact hdp (by rw [hsd]; exact hsp)

lemma valid_move_of_attack {g : Game} {m : CoordPair} {su du : Unit}
    (hs : g.get m.src = some su) (hsp : su.player = g.next_player)
    (hd : g.get m.dst = some du) (hdp : du.player ≠ g.next_player)
    (hadj : adjTest m.src m.dst = true) :
    g.is_valid_move m = true := by
  have hsv := get_some_valid hs
  have hdv := get_some_valid hd
  have hne := attack_src_ne_dst hs hsp hd hdp
  unfold Game.is_valid_move
  rw [hs, hd, hsv, hdv]
  simp [hne, hsp, hdp, hadj]

lemma perform_move_attack {g : Game} {m : CoordPair} {su du : Unit}
    (hs : g.get m.src = some su) (hsp : su.player = g.next_player)
    (hd : g.get m.dst = some du) (hdp : du.player ≠ g.next_player)
    (hadj : adjTest m.src m.dst = true) :
    g.perform_move m =
      ((g.mod_health m.dst (-(tableEntry Unit.damage_table su.type du.type))).mod_health
          m.src (-(tableEntry Unit.damage_table du.type su.type)), true,
       "attack from " ++ m.src.to_string ++ " to " ++ m.dst.to_string ++
         "\ncombat damage: to source =  " ++
         toString (tableEntry Unit.damage_table du.type su.type) ++
         ", to target = " ++ toString (tableEntry Unit.damage_table su.type du.type)) := by
  have hvm := valid_move_of_attack hs hsp hd hdp hadj
  have hne := attack_src_ne_dst hs hsp hd hdp
  have hpne : ¬ su.player = du.player := by
    intro h
    rw [h] at hsp
    exact hdp hsp
  unfold Game.perform_move
  rw [hvm, hd, hs]
  simp [hne, hpne]

/-- C4: on every legal attack pair (occupied by an enemy, orthogonally
adjacent), one `perform_move` call damages both units: the destination loses
the damage-table entry for (source kind, destination kind) and the source
loses the entry for (destination kind, source kind), both clamped to `[0,9]`,
with a unit whose clamped health is 0 removed from the board. -/
theorem C4_attack_mutual_damage (g : Game) (m : CoordPair) (su du : Unit)
    (hs : g.get m.src = some su) (hsp : su.player = g.next_player)
    (hd : g.get m.dst = some du) (hdp : du.player ≠ g.next_player)
    (hadj : adjTest m.src m.dst = true) :
    (g.perform_move m).2.1 = true ∧
    (g.perform_move m).1.get m.dst =
      (if clamp09 (du.health - tableEntry Unit.damage_table su.type du.type) = 0 then none
       else some { du with
         health := clamp09 (du.health - tableEntry Unit.damage_table su.type du.type) }) ∧
    (g.perform_move m).1.get m.src =
      (if clamp09 (su.health - tableEntry Unit.damage_table du.type su.type) = 0 then none
       else some { su with
         health := clamp09 (su.health - tableEntry Unit.damage_table du.type su.type) }) := by
  have hne := attack_src_ne_dst hs hsp hd hdp
  rw [perform_move_attack hs hsp hd hdp hadj]
  refine ⟨rfl, ?_, ?_⟩
  · rw [mod_health_get_other _ _ _ (Ne.symm hne), mod_health_get_self, hd]
    simp only [unit_mod_health_eq]
    have : du.health + -(tableEntry Unit.damage_table su.type du.type) =
        du.health - tableEntry Unit.damage_table su.type du.type := by ring
    rw [this]
    have hc0 := clamp09_nonneg (du.health - tableEntry Unit.damage_table su.type du.type)
    by_cases hz : clamp09 (du.health - tableEntry Unit.damage_table su.type du.type) = 0
    · simp [hz]
    · simp [hz]
      omega
  · rw [mod_health_get_self, mod_health_get_other _ _ _ hne, hs]
    simp only [unit_mod_health_eq]
    have : su.health + -(tableEntry Unit.damage_table du.type su.type) =
        su.health - tableEntry Unit.damage_table du.type su.type := by ring
    rw [this]
    have hc0 := clamp09_nonneg (su.health - tableEntry Unit.damage_table du.type su.type)
    by_cases hz : clamp09 (su.health - tableEntry Unit.damage_table du.type su.type) = 0
    · simp [hz]
    · simp [hz]
      omega

/-- Witness for C4: Virus attacks the defender AI; the AI dies (9 damage) and
the Virus survives with 6 health (3 damage) in the same call. -/
theorem C4_attack_mutual_damage_witness :
    gameAttack.get (Coord.mk 0 0) = some (Unit.mk .Attacker .Virus 9) ∧
    (Unit.mk .Attacker .Virus 9).player = gameAttack.next_player ∧
    gameAttack.get (Coord.mk 0 1) = some (Unit.mk .Defender .AI 9) ∧
    (Unit.mk .Defender .AI 9).player ≠ gameAttack.next_player ∧
    adjTest (Coord.mk 0 0) (Coord.mk 0 1) = true ∧
    (gameAttack.perform_move (CoordPair.mk (Coord.mk 0 0) (Coord.mk 0 1))).2.1 = true :=
  ⟨by decide, by decide, by decide, by decide, by decide,
   (C4_attack_mutual_damage gameAttack (CoordPair.mk (Coord.mk 0 0) (Coord.mk 0 1))
     (Unit.mk .Attacker .Virus 9) (Unit.mk .Defender .AI 9)
     (by decide) (by decide) (by decide) (by decide) (by decide)).1⟩

/-! ## C6: restricted movers -/

lemma get_eq_some_iff {g : Game} {c : Coord} {u : Unit} :
    g.get c = some u ↔ g.is_valid_coord c = true ∧ g.board c = some u := by
  unfold Game.get
  by_cases hv : g.is_valid_coord c = true
  · simp [hv]
  · simp [hv]

lemma combatAdjacent_iff (g : Game) (c0 : Coord) :
    g.combatAdjacent c0 = true ↔
      ∃ c ∈ c0.iter_adjacent, ∃ u, g.get c = some u ∧ u.player ≠ g.next_player := by
  unfold Game.combatAdjacent
  rw [List.any_eq_true]
  constructor
  · rintro ⟨c, hc, hp⟩
    refine ⟨c, hc, ?_⟩
    simp only [Bool.and_eq_true] at hp
    obtain ⟨⟨hv, hne⟩, hm⟩ := hp
    rcases hb : g.board c with _ | u
    · exfalso
      unfold Game.is_empty at hne
      rw [hb] at hne
      simp at hne
    · have hg : g.get c = some u := get_eq_some_iff.mpr ⟨hv, hb⟩
      refine ⟨u, hg, ?_⟩
      rw [hg] at hm
      simpa using hm
  · rintro ⟨c, hc, u, hg, hup⟩
    refine ⟨c, hc, ?_⟩
    have hv := get_some_valid hg
    have hb := (get_eq_some_iff.mp hg).2
    simp only [Bool.and_eq_true]
    refine ⟨⟨hv, ?_⟩, ?_⟩
    · unfold Game.is_empty
      rw [hb]
      simp
    · rw [hg]
      simpa using hup

/-- C6: a restricted mover (AI, Firewall or Program) of the side to move
stepping onto an empty in-bounds square: illegal whenever any orthogonally
adjacent cell holds an enemy unit; otherwise legal exactly for the single
step down or right (defender-owned) resp. up or left (attacker-owned). -/
theorem C6_restricted_mover (g : Game) (m : CoordPair) (su : Unit)
    (hs : g.get m.src = some su) (hsp : su.player = g.next_player)
    (ht : su.type = UnitType.AI ∨ su.type = UnitType.Firewall ∨ su.type = UnitType.Program)
    (hv : g.is_valid_coord m.dst = true) (he : g.get m.dst = none) :
    g.is_valid_move m = true ↔
      ((∀ c ∈ m.src.iter_adjacent, ∀ u, g.get c = some u → u.player = su.player) ∧
       (match su.player with
        | .Defender => m.dst = Coord.mk (m.src.row + 1) m.src.col ∨
            m.dst = Coord.mk m.src.row (m.src.col + 1)
        | .Attacker => m.dst = Coord.mk (m.src.row - 1) m.src.col ∨
            m.dst = Coord.mk m.src.row (m.src.col - 1))) := by
  have hsv := get_some_valid hs
  have hne : m.src ≠ m.dst := by
    intro h
    rw [h, he] at hs
    simp at hs
  have hforall : (¬ g.combatAdjacent m.src = true) ↔
      (∀ c ∈ m.src.iter_adjacent, ∀ u, g.get c = some u → u.player = su.player) := by
    rw [combatAdjacent_iff]
    push_neg
    constructor
    · intro h c hc u hu
      rw [hsp]
      exact h c hc u hu
    · intro h c hc u hu
      rw [← hsp]
      exact h c hc u hu
  obtain ⟨sp, st, sh⟩ := su
  unfold Game.is_valid_move
  rw [hs, he, hsv, hv]
  simp only at hsp ht hforall
  cases sp with
  | Attacker =>
    by_cases hca : g.combatAdjacent m.src = true
    · apply iff_of_false
      · simp [hne, ht, hca, ← hsp]
      · rintro ⟨hall, _⟩
        rw [← hforall] at hall
        exact hall hca
    · simp [hne, ht, hca, ← hsp, hforall.mp hca]
      exact fun _ => hforall.mp hca
  | Defender =>
    by_cases hca : g.combatAdjacent m.src = true
    · apply iff_of_false
      · simp [hne, ht, hca, ← hsp]
      · rintro ⟨hall, _⟩
        rw [← hforall] at hall
        exact hall hca
    · simp [hne, ht, hca, ← hsp, hforall.mp hca]
      exact fun _ => hforall.mp hca

/-- Witness for C6: a lone defender Program may step down, and the engaged
check is vacuous on an otherwise empty board. -/
theorem C6_restricted_mover_witness :
    gameLoneProgram.get (Coord.mk 0 0) = some (Unit.mk .Defender .Program 9) ∧
    (Unit.mk .Defender .Program 9).player = gameLoneProgram.next_player ∧
    gameLoneProgram.is_valid_coord (Coord.mk 1 0) = true ∧
    gameLoneProgram.get (Coord.mk 1 0) = none ∧
    gameLoneProgram.is_valid_move (CoordPair.mk (Coord.mk 0 0) (Coord.mk 1 0)) = true :=
  ⟨by decide, by decide, by decide, by decide,
   (C6_restricted_mover gameLoneProgram (CoordPair.mk (Coord.mk 0 0) (Coord.mk 1 0))
       (Unit.mk .Defender .Program 9) (by decide) (by decide) (by decide) (by decide)
       (by decide)).mpr (by decide)⟩

/-! ## C7: repair legality -/

/-- C7 as frozen is false: a pair with `src = dst` has its destination
occupied by a same-side unit (the mover itself), is not orthogonally adjacent
and is not repairable, yet `is_valid_move` accepts it (as a self-destruct). -/
theorem C7_repair_claim_counterexample :
    gameLoneVirus.get (Coord.mk 0 0) = some (Unit.mk .Attacker .Virus 9) ∧
    (Unit.mk .Attacker .Virus 9).player = gameLoneVirus.next_player ∧
    gameLoneVirus.is_valid_move (CoordPair.mk (Coord.mk 0 0) (Coord.mk 0 0)) = true ∧
    ¬ (adjTest (Coord.mk 0 0) (Coord.mk 0 0) = true ∧
       (Unit.mk .Attacker .Virus 9).health < 9 ∧
       tableEntry Unit.repair_table UnitType.Virus UnitType.Virus ≠ 0) :=
  ⟨by decide, by decide, by decide, by decide⟩

/-- C7 (amended): for a destination occupied by a same-side unit other than
the source square itself (`src ≠ dst`), the move is legal exactly when the
two squares are orthogonally adjacent, the target's health is strictly below
9 and the repair-table entry for (source kind, target kind) is nonzero. -/
theorem C7_repair_legality (g : Game) (m : CoordPair) (su du : Unit)
    (hs : g.get m.src = some su) (hsp : su.player = g.next_player)
    (hd : g.get m.dst = some du) (hdp : du.player = g.next_player)
    (hne : m.src ≠ m.dst) (hh : du.health ≤ 9) :
    g.is_valid_move m = true ↔
      (adjTest m.src m.dst = true ∧ du.health < 9 ∧
       tableEntry Unit.repair_table su.type du.type ≠ 0) := by
  have hsv := get_some_valid hs
  have hdv := get_some_valid hd
  obtain ⟨sp, st, sh⟩ := su
  obtain ⟨dp, dt, dh⟩ := du
  simp only at hsp hdp hh ⊢
  unfold Game.is_valid_move
  rw [hs, hd, hsv, hdv]
  have hdsp : dp = sp := hdp.trans hsp.symm
  by_cases hadj : adjTest m.src m.dst = true
  · by_cases h9 : dh = 9
    · apply iff_of_false
      · simp [hne, ← hsp, hdsp, hadj, h9]
      · rintro ⟨_, hlt, _⟩
        omega
    · have hlt : dh < 9 := lt_of_le_of_ne hh h9
      simp [hne, ← hsp, hdsp, hadj, h9, hlt]
      cases st <;> cases dt <;> decide
  · apply iff_of_false
    · simp [hne, ← hsp, hdsp, hadj]
    · rintro ⟨ha, _⟩
      exact hadj ha

/-- Witness for C7 (amended): a Tech repairing the adjacent friendly AI at
health 5 is legal. -/
theorem C7_repair_legality_witness :
    gameRepair.get (Coord.mk 0 0) = some (Unit.mk .Defender .Tech 9) ∧
    gameRepair.get (Coord.mk 0 1) = some (Unit.mk .Defender .AI 5) ∧
    (Coord.mk 0 0) ≠ (Coord.mk 0 1) ∧
    gameRepair.is_valid_move (CoordPair.mk (Coord.mk 0 0) (Coord.mk 0 1)) = true :=
  ⟨by decide, by decide, by decide,
   (C7_repair_legality gameRepair (CoordPair.mk (Coord.mk 0 0) (Coord.mk 0 1))
       (Unit.mk .Defender .Tech 9) (Unit.mk .Defender .AI 5)
       (by decide) (by decide) (by decide) (by decide) (by decide) (by decide)).mpr
     (by decide)⟩

/-! ## C5: self-destruct -/

lemma intRange_three (lo : Int) : intRange lo (lo + 3) = [lo, lo + 1, lo + 2] := by
  unfold intRange
  have h3 : (lo + 3 - lo).toNat = 3 := by omega
  rw [h3]
  simp [List.range_succ]

lemma iter_range_one (c : Coord) : c.iter_range 1 =
    [Coord.mk (c.row - 1) (c.col - 1), Coord.mk (c.row - 1) c.col,
     Coord.mk (c.row - 1) (c.col + 1),
     Coord.mk c.row (c.col - 1), Coord.mk c.row c.col, Coord.mk c.row (c.col + 1),
     Coord.mk (c.row + 1) (c.col - 1), Coord.mk (c.row + 1) c.col,
     Coord.mk (c.row + 1) (c.col + 1)] := by
  unfold Coord.iter_range
  have h1 : c.row + 1 + 1 = (c.row - 1) + 3 := by ring
  have h2 : c.col + 1 + 1 = (c.col - 1) + 3 := by ring
  rw [h1, h2, intRange_three, intRange_three]
  simp [show c.row - 1 + 1 = c.row from by ring, show c.row - 1 + 2 = c.row + 1 from by ring,
    show c.col - 1 + 1 = c.col from by ring, show c.col - 1 + 2 = c.col + 1 from by ring]

lemma mem_iter_range_one {c0 c : Coord} :
    c ∈ c0.iter_range 1 ↔
      (c.row - c0.row).natAbs ≤ 1 ∧ (c.col - c0.col).natAbs ≤ 1 := by
  rw [iter_range_one]
  obtain ⟨r, k⟩ := c
  simp [Coord.mk.injEq]
  omega

lemma iter_range_one_nodup (c : Coord) : (c.iter_range 1).Nodup := by
  rw [iter_range_one]
  simp [List.nodup_cons, List.mem_cons, Coord.mk.injEq]
  omega

lemma sd_step_options (p : Game × Int) (c : Coord) :
    ((selfDestructStep p c).1).options = p.1.options := by
  unfold selfDestructStep
  split
  · simp [mod_health_options]
  · rfl

lemma sd_step_valid (p : Game × Int) (c c2 : Coord) :
    ((selfDestructStep p c).1).is_valid_coord c2 = p.1.is_valid_coord c2 := by
  unfold Game.is_valid_coord
  rw [sd_step_options]

lemma sd_step_board_other (p : Game × Int) (c : Coord) {c2 : Coord} (h : c2 ≠ c) :
    ((selfDestructStep p c).1).board c2 = p.1.board c2 := by
  unfold selfDestructStep
  split
  · simp [mod_health_board_other _ _ _ h]
  · rfl

lemma sd_step_get_other (p : Game × Int) (c : Coord) {c2 : Coord} (h : c2 ≠ c) :
    ((selfDestructStep p c).1).get c2 = p.1.get c2 := by
  unfold Game.get
  rw [sd_step_valid, sd_step_board_other p c h]

lemma sd_fold_get_other : ∀ (l : List Coord) (p : Game × Int) {c2 : Coord}, c2 ∉ l →
    ((l.foldl selfDestructStep p).1).get c2 = p.1.get c2 := by
  intro l
  induction l with
  | nil => intro p c2 _; rfl
  | cons a t ih =>
    intro p c2 hc
    have hc2t : c2 ∉ t := fun h => hc (List.mem_cons_of_mem a h)
    have hc2a : c2 ≠ a := fun h => hc (by rw [h]; exact List.mem_cons_self a t)
    rw [List.foldl_cons, ih _ hc2t, sd_step_get_other p a hc2a]

lemma sd_fold_get_mem : ∀ (l : List Coord) (p : Game × Int) (c : Coord),
    l.Nodup → c ∈ l →
    ((l.foldl selfDestructStep p).1).get c =
      (if p.1.is_valid_coord c = true ∧ p.1.is_empty c = false then
        (p.1.mod_health c (-2)).get c
      else p.1.get c) := by
  intro l
  induction l with
  | nil => intro p c _ hc; simp at hc
  | cons a t ih =>
    intro p c hnd hc
    obtain ⟨hna, hndt⟩ := List.nodup_cons.mp hnd
    rw [List.foldl_cons]
    rcases List.mem_cons.mp hc with rfl | hct
    · rw [sd_fold_get_other t _ hna]
      by_cases hcond : p.1.is_valid_coord c = true ∧ p.1.is_empty c = false
      · simp [selfDestructStep, hcond]
      · simp [selfDestructStep, hcond]
    · have hca : c ≠ a := fun he => hna (he ▸ hct)
      rw [ih (selfDestructStep p a) c hndt hct]
      have hv := sd_step_valid p a c
      have hb := sd_step_board_other p a hca
      have hg := sd_step_get_other p a hca
      have hemp : ((selfDestructStep p a).1).is_empty c = p.1.is_empty c := by
        unfold Game.is_empty
        rw [hb]
      rw [hv, hemp, hg, mod_health_get_self, mod_health_get_self, hg]

lemma sd_fold_total : ∀ (l : List Coord) (p : Game × Int), l.Nodup →
    (l.foldl selfDestructStep p).2 =
      p.2 + 2 * ((l.filter
        (fun c => p.1.is_valid_coord c && !(p.1.is_empty c))).length : Int) := by
  intro l
  induction l with
  | nil => intro p _; simp
  | cons a t ih =>
    intro p hnd
    obtain ⟨hna, hndt⟩ := List.nodup_cons.mp hnd
    rw [List.foldl_cons, ih _ hndt]
    have hfe : t.filter
        (fun c => (selfDestructStep p a).1.is_valid_coord c &&
          !((selfDestructStep p a).1.is_empty c)) =
        t.filter (fun c => p.1.is_valid_coord c && !(p.1.is_empty c)) := by
      apply List.filter_congr
      intro c hc
      have hca : c ≠ a := fun he => hna (he ▸ hc)
      have hemp : ((selfDestructStep p a).1).is_empty c = p.1.is_empty c := by
        unfold Game.is_empty
        rw [sd_step_board_other p a hca]
      rw [sd_step_valid, hemp]
    rw [hfe]
    by_cases hcond : p.1.is_valid_coord a = true ∧ p.1.is_empty a = false
    · have hstep : (selfDestructStep p a).2 = p.2 + 2 := by
        simp [selfDestructStep, hcond]
      rw [hstep, List.filter_cons]
      have : (p.1.is_valid_coord a && !(p.1.is_empty a)) = true := by
        simp [hcond.1, hcond.2]
      rw [this]
      simp
      omega
    · have hstep : selfDestructStep p a = p := by
        simp [selfDestructStep, hcond]
      rw [hstep, List.filter_cons]
      have hfa : (p.1.is_valid_coord a && !(p.1.is_empty a)) = false := by
        cases hvb : p.1.is_valid_coord a <;> cases heb : p.1.is_empty a <;> simp_all
      rw [hfa]
      simp

lemma valid_move_of_self {g : Game} {c : Coord} {u : Unit}
    (hs : g.get c = some u) (hsp : u.player = g.next_player) :
    g.is_valid_move (CoordPair.mk c c) = true := by
  have hv := get_some_valid hs
  unfold Game.is_valid_move
  simp [hv, hs, ← hsp]

lemma perform_move_selfdestruct {g : Game} {m : CoordPair} {u : Unit}
    (heq : m.dst = m.src) (hs : g.get m.src = some u) (hsp : u.player = g.next_player) :
    g.perform_move m =
      (((m.src.iter_range 1).foldl selfDestructStep (g.mod_health m.src (-9), 0)).1, true,
       "self-destruct at " ++ m.src.to_string ++ "\nself-destructed for " ++
         toString ((m.src.iter_range 1).foldl selfDestructStep
           (g.mod_health m.src (-9), 0)).2 ++ " total damage") := by
  obtain ⟨s, d⟩ := m
  simp only at heq hs ⊢
  subst heq
  have hvm := valid_move_of_self hs hsp
  unfold Game.perform_move
  rw [hvm, hs]
  simp

/-- C5: a legal self-destruct removes the source (it loses all its at most 9
health); every other unit within Chebyshev distance 1 of the source loses 2
health, clamped to `[0,9]` and removed at 0; and the reported total damage is
2 × the number of occupied cells around the source, independent of
clamping. -/
theorem C5_self_destruct (g : Game) (m : CoordPair) (su : Unit)
    (heq : m.dst = m.src)
    (hs : g.get m.src = some su) (hsp : su.player = g.next_player)
    (hh : su.health ≤ 9) :
    (g.perform_move m).1.get m.src = none ∧
    (∀ c u, c ≠ m.src →
      (c.row - m.src.row).natAbs ≤ 1 → (c.col - m.src.col).natAbs ≤ 1 →
      g.get c = some u →
      (g.perform_move m).1.get c =
        (if clamp09 (u.health - 2) = 0 then none
         else some { u with health := clamp09 (u.health - 2) })) ∧
    (g.perform_move m).2.2 =
      "self-destruct at " ++ m.src.to_string ++ "\nself-destructed for " ++
        toString (2 * (((m.src.iter_range 1).filter
          (fun c => c ≠ m.src ∧ (g.get c).isSome)).length : Int)) ++ " total damage" := by
  have hv := get_some_valid hs
  rw [perform_move_selfdestruct heq hs hsp]
  set g1 := g.mod_health m.src (-9) with hg1
  have hg1src : g1.get m.src = none := by
    rw [hg1, mod_health_get_self, hs]
    have : (su.mod_health (-9)).health ≤ 0 := by
      rw [unit_mod_health_health]
      unfold clamp09
      split
      · omega
      · split <;> omega
    simp [this]
  have hg1v : ∀ c2, g1.is_valid_coord c2 = g.is_valid_coord c2 :=
    fun c2 => mod_health_valid g m.src (-9) c2
  have hg1b : ∀ c2, c2 ≠ m.src → g1.board c2 = g.board c2 :=
    fun c2 h => mod_health_board_other g m.src (-9) h
  have hg1g : ∀ c2, c2 ≠ m.src → g1.get c2 = g.get c2 :=
    fun c2 h => mod_health_get_other g m.src (-9) h
  have hg1bsrc : g1.board m.src = none := by
    have : g1.get m.src = g1.board m.src := get_eq_board (by rw [hg1v]; exact hv)
    rw [← this, hg1src]
  have hnd := iter_range_one_nodup m.src
  refine ⟨?_, ?_, ?_⟩
  · have hmem : m.src ∈ m.src.iter_range 1 := by
      rw [mem_iter_range_one]
      simp
    rw [sd_fold_get_mem _ _ _ hnd hmem]
    have : g1.is_empty m.src = true := by
      unfold Game.is_empty
      rw [hg1bsrc]
      rfl
    simp [this, hg1src]
  · intro c u hcne hr hk hu
    have hmem : c ∈ m.src.iter_range 1 := by
      rw [mem_iter_range_one]
      exact ⟨hr, hk⟩
    rw [sd_fold_get_mem _ _ _ hnd hmem]
    have hvc : g1.is_valid_coord c = true := by
      rw [hg1v]
      exact get_some_valid hu
    have hbc : g1.board c = some u := by
      rw [hg1b c hcne]
      rw [← get_eq_board (get_some_valid hu)]
      exact hu
    have hec : g1.is_empty c = false := by
      unfold Game.is_empty
      rw [hbc]
      rfl
    rw [if_pos ⟨hvc, hec⟩, mod_health_get_self, hg1g c hcne, hu]
    simp only [unit_mod_health_eq]
    have harith : u.health + (-2 : Int) = u.health - 2 := by ring
    rw [harith]
    have hc0 := clamp09_nonneg (u.health - 2)
    by_cases hz : clamp09 (u.health - 2) = 0
    · simp [hz]
    · simp [hz]
      omega
  · have htot := sd_fold_total (m.src.iter_range 1) (g1, 0) hnd
    rw [htot]
    have hfe : (m.src.iter_range 1).filter
        (fun c => g1.is_valid_coord c && !(g1.is_empty c)) =
        (m.src.iter_range 1).filter (fun c => c ≠ m.src ∧ (g.get c).isSome) := by
      apply List.filter_congr
      intro c _
      by_cases hc : c = m.src
      · subst hc
        have hse : g1.is_empty m.src = true := by
          unfold Game.is_empty
          rw [hg1bsrc]
          rfl
        simp [hse]
      · have hemp : g1.is_empty c = (g.board c).isNone := by
          unfold Game.is_empty
          rw [hg1b c hc]
        rw [hg1v, hemp]
        have : (g.get c).isSome = (g.is_valid_coord c && !((g.board c).isNone)) := by
          unfold Game.get
          by_cases hvv : g.is_valid_coord c = true
          · simp [hvv]
          · simp [hvv]
        simp [hc, this]
    rw [hfe]
    have : (0 : Int) + 2 * (((m.src.iter_range 1).filter
        (fun c => c ≠ m.src ∧ (g.get c).isSome)).length : Int) =
        2 * (((m.src.iter_range 1).filter
        (fun c => c ≠ m.src ∧ (g.get c).isSome)).length : Int) := by ring
    rw [this]

/-- Witness for C5: the Virus at (0,0) self-destructs; it is removed, the
health-1 Tech at (0,1) dies, the health-9 Tech at (1,1) drops to 7. -/
theorem C5_self_destruct_witness :
    gameSelfDestruct.get (Coord.mk 0 0) = some (Unit.mk .Attacker .Virus 9) ∧
    (gameSelfDestruct.perform_move
      (CoordPair.mk (Coord.mk 0 0) (Coord.mk 0 0))).1.get (Coord.mk 0 0) = none ∧
    (gameSelfDestruct.perform_move
      (CoordPair.mk (Coord.mk 0 0) (Coord.mk 0 0))).1.get (Coord.mk 1 1) =
      some (Unit.mk .Defender .Tech 7) := by
  have h := C5_self_destruct gameSelfDestruct (CoordPair.mk (Coord.mk 0 0) (Coord.mk 0 0))
    (Unit.mk .Attacker .Virus 9) rfl (by decide) (by decide) (by decide)
  refine ⟨by decide, h.1, ?_⟩
  have h2 := h.2.1 (Coord.mk 1 1) (Unit.mk .Defender .Tech 9)
    (by decide) (by decide) (by decide) (by decide)
  rw [h2]
  decide

/-! ## C1: move generation is sound and complete -/

lemma mem_intRange {a lo hi : Int} : a ∈ intRange lo hi ↔ lo ≤ a ∧ a < hi := by
  unfold intRange
  rw [List.mem_map]
  constructor
  · rintro ⟨i, hi2, rfl⟩
    rw [List.mem_range] at hi2
    omega
  · intro ⟨h1, h2⟩
    refine ⟨(a - lo).toNat, ?_, by omega⟩
    rw [List.mem_range]
    omega

lemma valid_coord_iff {g : Game} {c : Coord} :
    g.is_valid_coord c = true ↔
      0 ≤ c.row ∧ c.row < g.options.dim ∧ 0 ≤ c.col ∧ c.col < g.options.dim := by
  unfold Game.is_valid_coord
  split <;> simp <;> omega

lemma mem_rect_iff {d : Int} {c : Coord} :
    c ∈ (CoordPair.from_dim d).iter_rectangle ↔
      0 ≤ c.row ∧ c.row < d ∧ 0 ≤ c.col ∧ c.col < d := by
  unfold CoordPair.from_dim CoordPair.iter_rectangle
  obtain ⟨r, k⟩ := c
  rw [List.mem_flatMap]
  dsimp only
  constructor
  · rintro ⟨a, ha, hb⟩
    rw [List.mem_map] at hb
    obtain ⟨b, hb2, heq⟩ := hb
    rw [mem_intRange] at ha
    rw [mem_intRange] at hb2
    injection heq with e1 e2
    omega
  · rintro ⟨h1, h2, h3, h4⟩
    refine ⟨r, ?_, ?_⟩
    · rw [mem_intRange]
      omega
    · rw [List.mem_map]
      refine ⟨k, ?_, rfl⟩
      rw [mem_intRange]
      omega

lemma mem_player_units {g : Game} {p : Player} {c : Coord} {u : Unit} :
    (c, u) ∈ g.player_units p ↔ g.get c = some u ∧ u.player = p := by
  unfold Game.player_units
  rw [List.mem_filterMap]
  constructor
  · rintro ⟨c2, _, hf⟩
    rcases hg : g.get c2 with _ | u2
    · rw [hg] at hf
      simp at hf
    · rw [hg] at hf
      by_cases hp2 : u2.player = p
      · simp only [hp2, if_true] at hf
        injection hf with hf2
        injection hf2 with e1 e2
        rw [← e1, ← e2]
        exact ⟨hg, hp2⟩
      · simp [hp2] at hf
  · rintro ⟨hg, hp⟩
    refine ⟨c, ?_, ?_⟩
    · rw [mem_rect_iff]
      exact valid_coord_iff.mp (get_some_valid hg)
    · rw [hg]
      simp [hp]

lemma valid_move_src {g : Game} {m : CoordPair} (h : g.is_valid_move m = true) :
    ∃ u, g.get m.src = some u ∧ u.player = g.next_player := by
  unfold Game.is_valid_move at h
  split at h
  · simp at h
  · rcases hg : g.get m.src with _ | u
    · rw [hg] at h
      simp at h
    · rw [hg] at h
      by_cases hp : u.player = g.next_player
      · exact ⟨u, rfl, hp⟩
      · simp [hp] at h

lemma valid_move_dst {g : Game} {m : CoordPair} (h : g.is_valid_move m = true) :
    m.dst = m.src ∨ m.dst ∈ m.src.iter_adjacent := by
  obtain ⟨s, d⟩ := m
  simp only at h ⊢
  unfold Game.is_valid_move at h
  split at h
  · simp at h
  · rcases hg : g.get s with _ | u
    · simp only [hg] at h
      simp at h
    · simp only [hg] at h
      by_cases hp : u.player = g.next_player
      swap
      · simp [hp] at h
      rw [if_neg (by simp [hp])] at h
      by_cases he : s = d
      · left
        exact he.symm
      rw [if_neg he] at h
      right
      obtain ⟨sr, sc⟩ := s
      obtain ⟨dr, dc⟩ := d
      rcases hd : g.get (Coord.mk dr dc) with _ | du
      · simp only [hd] at h
        split at h
        · split at h
          · simp at h
          · split at h
            · rename_i hdir
              simp only [Coord.mk.injEq] at hdir
              simp [Coord.iter_adjacent, Coord.mk.injEq]
              omega
            · simp at h
        · split at h
          · split at h
            · simp at h
            · split at h
              · rename_i hdir
                simp only [Coord.mk.injEq] at hdir
                simp [Coord.iter_adjacent, Coord.mk.injEq]
                omega
              · simp at h
          · split at h
            · rename_i hdir
              simp only [Coord.mk.injEq] at hdir
              simp [Coord.iter_adjacent, Coord.mk.injEq]
              omega
            · simp at h
      · simp only [hd] at h
        split at h
        · split at h
          · rename_i hadj
            simp only [adjTest, decide_eq_true_eq] at hadj
            simp [Coord.iter_adjacent, Coord.mk.injEq]
            omega
          · simp at h
        · split at h
          · rename_i hadj
            simp only [adjTest, decide_eq_true_eq] at hadj
            simp [Coord.iter_adjacent, Coord.mk.injEq]
            omega
          · simp at h

/-- C1: the move generator is sound and complete for the legality engine:
a pair is yielded by `move_candidates` (including the unconditional
self-destruct pair for each unit of the side to move) exactly when
`is_valid_move` accepts it. -/
theorem C1_move_generation_sound_complete (g : Game) (m : CoordPair) :
    m ∈ g.move_candidates ↔ g.is_valid_move m = true := by
  unfold Game.move_candidates
  rw [List.mem_flatMap]
  constructor
  · rintro ⟨⟨c, u⟩, hcu, hm⟩
    rw [List.mem_append] at hm
    rcases hm with hm | hm
    · rw [List.mem_map] at hm
      obtain ⟨dst, hdst, rfl⟩ := hm
      exact (List.mem_filter.mp hdst).2
    · simp only [List.mem_singleton] at hm
      subst hm
      have h2 := mem_player_units.mp hcu
      exact valid_move_of_self h2.1 h2.2
  · intro h
    obtain ⟨u, hu, hup⟩ := valid_move_src h
    refine ⟨(m.src, u), mem_player_units.mpr ⟨hu, hup⟩, ?_⟩
    rw [List.mem_append]
    have hme : CoordPair.mk m.src m.dst = m := by
      cases m
      rfl
    rcases valid_move_dst h with hd | hd
    · right
      simp only [List.mem_singleton]
      rw [← hme, hd]
    · left
      rw [List.mem_map]
      refine ⟨m.dst, List.mem_filter.mpr ⟨hd, ?_⟩, hme⟩
      rw [hme]
      exact h

/-! ## C3: leaf behaviour of the searches -/

lemma ofInt_ne_bot (n : Int) : ofInt n ≠ ⊥ := by
  simp [ofInt]

lemma ofInt_ne_top (n : Int) : ofInt n ≠ ⊤ := by
  simp [ofInt]

lemma rmMaxLoop_best_some (child : CoordPair → Score) :
    ∀ (l : List CoordPair) (me : Score) (x : CoordPair),
      ((rmMaxLoop child l me (some x)).2).isSome = true := by
  intro l
  induction l with
  | nil => intro me x; rfl
  | cons mv t ih =>
    intro me x
    simp only [rmMaxLoop]
    split
    · exact ih _ _
    · exact ih _ _

lemma rmMaxLoop_none_fst (child : CoordPair → Score) :
    ∀ (l : List CoordPair) (me : Score),
      (rmMaxLoop child l me none).2 = none → (rmMaxLoop child l me none).1 = me := by
  intro l
  induction l with
  | nil => intro me _; rfl
  | cons mv t ih =>
    intro me h
    simp only [rmMaxLoop] at h ⊢
    by_cases hlt : me < child mv
    · rw [if_pos hlt] at h ⊢
      exfalso
      have hs := rmMaxLoop_best_some child t (child mv) mv
      rw [h] at hs
      simp at hs
    · rw [if_neg hlt] at h ⊢
      exact ih me h

lemma rmMinLoop_best_some (child : CoordPair → Score) :
    ∀ (l : List CoordPair) (me : Score) (x : CoordPair),
      ((rmMinLoop child l me (some x)).2).isSome = true := by
  intro l
  induction l with
  | nil => intro me x; rfl
  | cons mv t ih =>
    intro me x
    simp only [rmMinLoop]
    split
    · exact ih _ _
    · exact ih _ _

lemma rmMinLoop_none_fst (child : CoordPair → Score) :
    ∀ (l : List CoordPair) (me : Score),
      (rmMinLoop child l me none).2 = none → (rmMinLoop child l me none).1 = me := by
  intro l
  induction l with
  | nil => intro me _; rfl
  | cons mv t ih =>
    intro me h
    simp only [rmMinLoop] at h ⊢
    by_cases hlt : child mv < me
    · rw [if_pos hlt] at h ⊢
      exfalso
      have hs := rmMinLoop_best_some child t (child mv) mv
      rw [h] at hs
      simp at hs
    · rw [if_neg hlt] at h ⊢
      exact ih me h

lemma abMaxLoop_best_some (child : Score → CoordPair → Score) (beta : Score) :
    ∀ (l : List CoordPair) (alpha me : Score) (x : CoordPair),
      ((abMaxLoop child beta l alpha me (some x)).2).isSome = true := by
  intro l
  induction l with
  | nil => intro alpha me x; rfl
  | cons mv t ih =>
    intro alpha me x
    simp only [abMaxLoop]
    by_cases hlt : me < child alpha mv
    · simp only [if_pos hlt]
      split
      · rfl
      · exact ih _ _ _
    · simp only [if_neg hlt]
      split
      · rfl
      · exact ih _ _ _

lemma abMaxLoop_none_fst (child : Score → CoordPair → Score) (beta : Score) :
    ∀ (l : List CoordPair) (alpha me : Score),
      (abMaxLoop child beta l alpha me none).2 = none →
      (abMaxLoop child beta l alpha me none).1 = me := by
  intro l
  induction l with
  | nil => intro alpha me _; rfl
  | cons mv t ih =>
    intro alpha me h
    simp only [abMaxLoop] at h ⊢
    by_cases hlt : me < child alpha mv
    · simp only [if_pos hlt] at h ⊢
      split at h
      · simp at h
      · exfalso
        have hs := abMaxLoop_best_some child beta t
          (max alpha (child alpha mv)) (child alpha mv) mv
        rw [h] at hs
        simp at hs
    · simp only [if_neg hlt] at h ⊢
      split at h
      · rename_i hbr
        rw [if_pos hbr]
      · rename_i hbr
        rw [if_neg hbr]
        exact ih _ me h

lemma abMinLoop_best_some (child : Score → CoordPair → Score) (alpha : Score) :
    ∀ (l : List CoordPair) (beta me : Score) (x : CoordPair),
      ((abMinLoop child alpha l beta me (some x)).2).isSome = true := by
  intro l
  induction l with
  | nil => intro beta me x; rfl
  | cons mv t ih =>
    intro beta me x
    simp only [abMinLoop]
    by_cases hlt : child beta mv < me
    · simp only [if_pos hlt]
      split
      · rfl
      · exact ih _ _ _
    · simp only [if_neg hlt]
      split
      · rfl
      · exact ih _ _ _

lemma abMinLoop_none_fst (child : Score → CoordPair → Score) (alpha : Score) :
    ∀ (l : List CoordPair) (beta me : Score),
      (abMinLoop child alpha l beta me none).2 = none →
      (abMinLoop child alpha l beta me none).1 = me := by
  intro l
  induction l with
  | nil => intro beta me _; rfl
  | cons mv t ih =>
    intro beta me h
    simp only [abMinLoop] at h ⊢
    by_cases hlt : child beta mv < me
    · simp only [if_pos hlt] at h ⊢
      split at h
      · simp at h
      · exfalso
        have hs := abMinLoop_best_some child alpha t
          (min beta (child beta mv)) (child beta mv) mv
        rw [h] at hs
        simp at hs
    · simp only [if_neg hlt] at h ⊢
      split at h
      · rename_i hbr
        rw [if_pos hbr]
      · rename_i hbr
        rw [if_neg hbr]
        exact ih _ me h

/-- C3 (amended): a search invocation is a leaf — returning the snapshot's
heuristic score, no move and the remaining depth without expanding children —
exactly when the game is over on the *receiver* (the parent snapshot; at the
root call this coincides with the snapshot), or the remaining depth is 0, or
the clock reading is within 0.01s of the receiver's time budget.  This holds
for both the plain minimax and the alpha-beta search. -/
theorem C3_leaf_behaviour (self cur : Game) (depth : Nat) (maximize : Bool)
    (alpha beta : Score) (elapsed : ℚ) :
    (leafTest self depth elapsed ↔
      random_move self cur depth maximize elapsed = (ofInt cur.e, none, depth)) ∧
    (leafTest self depth elapsed ↔
      alphabeta self cur depth alpha beta maximize elapsed = (ofInt cur.e, none, depth)) := by
  constructor
  · constructor
    · intro hL
      unfold random_move
      rw [if_pos hL]
    · intro hEq
      by_contra hL
      have hd : depth ≠ 0 := fun h => hL (Or.inr (Or.inl h))
      unfold random_move at hEq
      rw [if_neg hL] at hEq
      rcases depth with _ | d
      · exact hd rfl
      dsimp only at hEq
      rcases maximize with _ | _
      · simp only [Bool.false_eq_true, if_false] at hEq
        have h2 := congrArg (fun t : Score × Option CoordPair × Nat => t.2.1) hEq
        have h1 := congrArg (fun t : Score × Option CoordPair × Nat => t.1) hEq
        simp only at h1 h2
        rw [rmMinLoop_none_fst _ _ _ h2] at h1
        exact ofInt_ne_top cur.e h1.symm
      · simp only [if_true] at hEq
        have h2 := congrArg (fun t : Score × Option CoordPair × Nat => t.2.1) hEq
        have h1 := congrArg (fun t : Score × Option CoordPair × Nat => t.1) hEq
        simp only at h1 h2
        rw [rmMaxLoop_none_fst _ _ _ h2] at h1
        exact ofInt_ne_bot cur.e h1.symm
  · constructor
    · intro hL
      unfold alphabeta
      rw [if_pos hL]
    · intro hEq
      by_contra hL
      have hd : depth ≠ 0 := fun h => hL (Or.inr (Or.inl h))
      unfold alphabeta at hEq
      rw [if_neg hL] at hEq
      rcases depth with _ | d
      · exact hd rfl
      dsimp only at hEq
      rcases maximize with _ | _
      · simp only [Bool.false_eq_true, if_false] at hEq
        have h2 := congrArg (fun t : Score × Option CoordPair × Nat => t.2.1) hEq
        have h1 := congrArg (fun t : Score × Option CoordPair × Nat => t.1) hEq
        simp only at h1 h2
        rw [abMinLoop_none_fst _ _ _ _ _ h2] at h1
        exact ofInt_ne_top cur.e h1.symm
      · simp only [if_true] at hEq
        have h2 := congrArg (fun t : Score × Option CoordPair × Nat => t.2.1) hEq
        have h1 := congrArg (fun t : Score × Option CoordPair × Nat => t.1) hEq
        simp only at h1 h2
        rw [abMaxLoop_none_fst _ _ _ _ _ h2] at h1
        exact ofInt_ne_bot cur.e h1.symm

/-- C3 as frozen is false: the leaf test consults the receiver (`self`), not
the snapshot.  Here the snapshot is already over (the attacker lost its AI
flag), the depth is 1 and the clock is far from the budget, yet the search
expands the snapshot's children instead of returning the leaf triple. -/
theorem C3_leaf_counterexample :
    gameOverSnapshot.is_finished = true ∧
    (1 : Nat) ≠ 0 ∧
    ¬ (emptyGame.options.max_time - 1/100 ≤ (0 : ℚ)) ∧
    random_move emptyGame gameOverSnapshot 1 true 0 ≠
      (ofInt gameOverSnapshot.e, none, 1) := by
  have hnt : ¬ (emptyGame.options.max_time - 1/100 ≤ (0 : ℚ)) := by
    show ¬ ((5 : ℚ) - 1/100 ≤ 0)
    norm_num
  have hL : ¬ leafTest emptyGame 1 0 := by
    unfold leafTest
    push_neg
    exact ⟨by decide, by decide, not_le.mp hnt⟩
  refine ⟨by decide, by decide, hnt, ?_⟩
  have hchild : (random_move (gameOverSnapshot.setNextPlayer Player.Attacker)
      ((gameOverSnapshot.setNextPlayer Player.Attacker).perform_move
        (CoordPair.mk (Coord.mk 0 0) (Coord.mk 0 0))).1 0 false 0).1 = ofInt 0 := by
    have hleaf : leafTest (gameOverSnapshot.setNextPlayer Player.Attacker) 0 0 :=
      Or.inr (Or.inl rfl)
    unfold random_move
    rw [if_pos hleaf]
    decide
  have hmoves : (gameOverSnapshot.setNextPlayer Player.Attacker).generate_valid_moves =
      [CoordPair.mk (Coord.mk 0 0) (Coord.mk 0 0)] := by decide
  have hval : random_move emptyGame gameOverSnapshot 1 true 0 =
      (ofInt 0, some (CoordPair.mk (Coord.mk 0 0) (Coord.mk 0 0)), 1) := by
    unfold random_move
    rw [if_neg hL]
    dsimp only
    rw [hmoves]
    simp only [rmMaxLoop, hchild]
    rw [if_pos ((bot_lt_iff_ne_bot).mpr (ofInt_ne_bot 0))]
    rfl
  rw [hval]
  intro hcontra
  have := congrArg (fun t : Score × Option CoordPair × Nat => t.2.1) hcontra
  simp at this

/-! ## C2: alpha-beta pruning computes the minimax value

The proof is the fail-soft alpha-beta argument: each loop result `r` relates
to the exact fold of the child values `v` by `r ≤ α → v ≤ r`, `β ≤ r → r ≤ v`
and `α < r < β → r = v`; with the root bounds `MIN_HEURISTIC_SCORE` and
`MAX_HEURISTIC_SCORE` and every heuristic leaf bounded well inside them, the
three cases collapse to equality. -/

lemma foldMax_cons (val : CoordPair → Score) (mv : CoordPair) (l : List CoordPair)
    (acc : Score) : foldMax val (mv :: l) acc = foldMax val l (max acc (val mv)) := rfl

lemma foldMin_cons (val : CoordPair → Score) (mv : CoordPair) (l : List CoordPair)
    (acc : Score) : foldMin val (mv :: l) acc = foldMin val l (min acc (val mv)) := rfl

lemma acc_le_foldMax (val : CoordPair → Score) :
    ∀ (l : List CoordPair) (acc : Score), acc ≤ foldMax val l acc := by
  intro l
  induction l with
  | nil => intro acc; exact le_refl _
  | cons mv t ih =>
    intro acc
    rw [foldMax_cons]
    exact le_trans (le_max_left _ _) (ih _)

lemma foldMin_le_acc (val : CoordPair → Score) :
    ∀ (l : List CoordPair) (acc : Score), foldMin val l acc ≤ acc := by
  intro l
  induction l with
  | nil => intro acc; exact le_refl _
  | cons mv t ih =>
    intro acc
    rw [foldMin_cons]
    exact le_trans (ih _) (min_le_left _ _)

lemma le_foldMax_of_mem (val : CoordPair → Score) :
    ∀ (l : List CoordPair) (acc : Score) (mv : CoordPair), mv ∈ l →
      val mv ≤ foldMax val l acc := by
  intro l
  induction l with
  | nil =>
    intro acc mv h
    simp at h
  | cons a t ih =>
    intro acc mv h
    rw [foldMax_cons]
    rcases List.mem_cons.mp h with rfl | h2
    · exact le_trans (le_max_right _ _) (acc_le_foldMax val t _)
    · exact ih _ mv h2

lemma foldMin_le_of_mem (val : CoordPair → Score) :
    ∀ (l : List CoordPair) (acc : Score) (mv : CoordPair), mv ∈ l →
      foldMin val l acc ≤ val mv := by
  intro l
  induction l with
  | nil =>
    intro acc mv h
    simp at h
  | cons a t ih =>
    intro acc mv h
    rw [foldMin_cons]
    rcases List.mem_cons.mp h with rfl | h2
    · exact le_trans (foldMin_le_acc val t _) (min_le_right _ _)
    · exact ih _ mv h2

lemma rmMaxLoop_fst (child : CoordPair → Score) :
    ∀ (l : List CoordPair) (me : Score) (b : Option CoordPair),
      (rmMaxLoop child l me b).1 = foldMax child l me := by
  intro l
  induction l with
  | nil => intro me b; rfl
  | cons mv t ih =>
    intro me b
    simp only [rmMaxLoop, foldMax_cons]
    by_cases hlt : me < child mv
    · rw [if_pos hlt, ih, max_eq_right (le_of_lt hlt)]
    · rw [if_neg hlt, ih, max_eq_left (le_of_not_lt hlt)]

lemma rmMinLoop_fst (child : CoordPair → Score) :
    ∀ (l : List CoordPair) (me : Score) (b : Option CoordPair),
      (rmMinLoop child l me b).1 = foldMin child l me := by
  intro l
  induction l with
  | nil => intro me b; rfl
  | cons mv t ih =>
    intro me b
    simp only [rmMinLoop, foldMin_cons]
    by_cases hlt : child mv < me
    · rw [if_pos hlt, ih, min_eq_right (le_of_lt hlt)]
    · rw [if_neg hlt, ih, min_eq_left (le_of_not_lt hlt)]

lemma abMaxLoop_km (child : Score → CoordPair → Score) (val : CoordPair → Score)
    (beta alpha0 : Score) (hab : alpha0 < beta)
    (hchild : ∀ a mv, alpha0 ≤ a → a < beta →
      ((child a mv ≤ a → val mv ≤ child a mv) ∧
       (beta ≤ child a mv → child a mv ≤ val mv) ∧
       (a < child a mv → child a mv < beta → child a mv = val mv))) :
    ∀ (l : List CoordPair) (me : Score) (b : Option CoordPair) (tm : Score),
      me < beta →
      ((me ≤ alpha0 ∧ tm ≤ me) ∨ (alpha0 < me ∧ me = tm)) →
      (((abMaxLoop child beta l (max alpha0 me) me b).1 ≤ alpha0 →
          foldMax val l tm ≤ (abMaxLoop child beta l (max alpha0 me) me b).1) ∧
       (beta ≤ (abMaxLoop child beta l (max alpha0 me) me b).1 →
          (abMaxLoop child beta l (max alpha0 me) me b).1 ≤ foldMax val l tm) ∧
       (alpha0 < (abMaxLoop child beta l (max alpha0 me) me b).1 →
          (abMaxLoop child beta l (max alpha0 me) me b).1 < beta →
          (abMaxLoop child beta l (max alpha0 me) me b).1 = foldMax val l tm)) := by
  intro l
  induction l with
  | nil =>
    intro me b tm hmb hinv
    simp only [abMaxLoop, foldMax]
    rcases hinv with ⟨h1, h2⟩ | ⟨h1, h2⟩
    · exact ⟨fun _ => h2, fun hb => ((not_le.mpr hmb) hb).elim,
        fun ha _ => ((not_lt.mpr h1) ha).elim⟩
    · exact ⟨fun hle => ((not_le.mpr h1) hle).elim,
        fun hb => ((not_le.mpr hmb) hb).elim, fun _ _ => h2⟩
  | cons mv t ih =>
    intro me b tm hmb hinv
    have ha0 : alpha0 ≤ max alpha0 me := le_max_left _ _
    have hab2 : max alpha0 me < beta := max_lt hab hmb
    obtain ⟨hc1, hc2, hc3⟩ := hchild (max alpha0 me) mv ha0 hab2
    simp only [abMaxLoop, foldMax_cons]
    by_cases hlt : me < child (max alpha0 me) mv
    · simp only [if_pos hlt]
      by_cases hbr : beta ≤ child (max alpha0 me) mv
      · rw [if_pos hbr]
        refine ⟨?_, ?_, ?_⟩
        · intro hle
          exact ((not_le.mpr hab) (le_trans hbr hle)).elim
        · intro _
          exact le_trans (hc2 hbr) (le_trans (le_max_right _ _) (acc_le_foldMax val t _))
        · intro _ hlt2
          exact ((not_le.mpr hlt2) hbr).elim
      · rw [if_neg hbr]
        have hevb : child (max alpha0 me) mv < beta := not_le.mp hbr
        have halpha : max (max alpha0 me) (child (max alpha0 me) mv) =
            max alpha0 (child (max alpha0 me) mv) := by
          rw [max_assoc]
          congr 1
          exact max_eq_right (le_of_lt hlt)
        rw [halpha]
        rcases le_or_lt (child (max alpha0 me) mv) alpha0 with hcase | hcase
        · have hva : val mv ≤ child (max alpha0 me) mv := hc1 (le_trans hcase ha0)
          have htm : tm ≤ child (max alpha0 me) mv := by
            rcases hinv with ⟨h1, h2⟩ | ⟨h1, h2⟩
            · exact le_trans h2 (le_of_lt hlt)
            · exact ((not_lt.mpr hcase) (lt_trans h1 hlt)).elim
          exact ih (child (max alpha0 me) mv) (some mv) (max tm (val mv)) hevb
            (Or.inl ⟨hcase, max_le htm hva⟩)
        · have haev : max alpha0 me < child (max alpha0 me) mv := max_lt hcase hlt
          have hveq : child (max alpha0 me) mv = val mv := hc3 haev hevb
          have htm : tm ≤ child (max alpha0 me) mv := by
            rcases hinv with ⟨h1, h2⟩ | ⟨h1, h2⟩
            · exact le_trans h2 (le_of_lt hlt)
            · rw [← h2]
              exact le_of_lt hlt
          have htm2 : max tm (val mv) = child (max alpha0 me) mv := by
            rw [← hveq]
            exact max_eq_right htm
          exact ih (child (max alpha0 me) mv) (some mv) (max tm (val mv)) hevb
            (Or.inr ⟨hcase, htm2.symm⟩)
    · simp only [if_neg hlt]
      have hevme : child (max alpha0 me) mv ≤ me := le_of_not_lt hlt
      rw [if_neg (not_le.mpr hmb)]
      have halpha : max (max alpha0 me) me = max alpha0 me := by
        rw [max_assoc, max_self]
      rw [halpha]
      have hva : val mv ≤ me :=
        le_trans (hc1 (le_trans hevme (le_max_right _ _))) hevme
      rcases hinv with ⟨h1, h2⟩ | ⟨h1, h2⟩
      · exact ih me b (max tm (val mv)) hmb (Or.inl ⟨h1, max_le h2 hva⟩)
      · refine ih me b (max tm (val mv)) hmb (Or.inr ⟨h1, ?_⟩)
        rw [← h2]
        exact (max_eq_left hva).symm

lemma abMinLoop_km (child : Score → CoordPair → Score) (val : CoordPair → Score)
    (alpha0 beta0 : Score) (hab : alpha0 < beta0)
    (hchild : ∀ b mv, b ≤ beta0 → alpha0 < b →
      ((child b mv ≤ alpha0 → val mv ≤ child b mv) ∧
       (b ≤ child b mv → child b mv ≤ val mv) ∧
       (alpha0 < child b mv → child b mv < b → child b mv = val mv))) :
    ∀ (l : List CoordPair) (me : Score) (b : Option CoordPair) (tm : Score),
      alpha0 < me →
      ((beta0 ≤ me ∧ me ≤ tm) ∨ (me < beta0 ∧ me = tm)) →
      (((abMinLoop child alpha0 l (min beta0 me) me b).1 ≤ alpha0 →
          foldMin val l tm ≤ (abMinLoop child alpha0 l (min beta0 me) me b).1) ∧
       (beta0 ≤ (abMinLoop child alpha0 l (min beta0 me) me b).1 →
          (abMinLoop child alpha0 l (min beta0 me) me b).1 ≤ foldMin val l tm) ∧
       (alpha0 < (abMinLoop child alpha0 l (min beta0 me) me b).1 →
          (abMinLoop child alpha0 l (min beta0 me) me b).1 < beta0 →
          (abMinLoop child alpha0 l (min beta0 me) me b).1 = foldMin val l tm)) := by
  intro l
  induction l with
  | nil =>
    intro me b tm hma hinv
    simp only [abMinLoop, foldMin]
    rcases hinv with ⟨h1, h2⟩ | ⟨h1, h2⟩
    · exact ⟨fun hle => ((not_le.mpr hma) hle).elim, fun _ => h2,
        fun _ hlt => ((not_lt.mpr h1) hlt).elim⟩
    · exact ⟨fun hle => ((not_le.mpr hma) hle).elim,
        fun hb => ((not_le.mpr h1) hb).elim, fun _ _ => h2⟩
  | cons mv t ih =>
    intro me b tm hma hinv
    have hb0 : min beta0 me ≤ beta0 := min_le_left _ _
    have hab2 : alpha0 < min beta0 me := lt_min hab hma
    obtain ⟨hc1, hc2, hc3⟩ := hchild (min beta0 me) mv hb0 hab2
    simp only [abMinLoop, foldMin_cons]
    by_cases hlt : child (min beta0 me) mv < me
    · simp only [if_pos hlt]
      by_cases hbr : child (min beta0 me) mv ≤ alpha0
      · rw [if_pos hbr]
        refine ⟨?_, ?_, ?_⟩
        · intro _
          exact le_trans (foldMin_le_acc val t _)
            (le_trans (min_le_right _ _) (hc1 hbr))
        · intro hble
          exact ((not_le.mpr hab) (le_trans hble hbr)).elim
        · intro hlt2 _
          exact ((not_le.mpr hlt2) hbr).elim
      · rw [if_neg hbr]
        have heva : alpha0 < child (min beta0 me) mv := not_le.mp hbr
        have hbeta : min (min beta0 me) (child (min beta0 me) mv) =
            min beta0 (child (min beta0 me) mv) := by
          rw [min_assoc]
          congr 1
          exact min_eq_right (le_of_lt hlt)
        rw [hbeta]
        rcases le_or_lt beta0 (child (min beta0 me) mv) with hcase | hcase
        · have hva : child (min beta0 me) mv ≤ val mv :=
            hc2 (le_trans hb0 hcase)
          have htm : child (min beta0 me) mv ≤ tm := by
            rcases hinv with ⟨h1, h2⟩ | ⟨h1, h2⟩
            · exact le_trans (le_of_lt hlt) h2
            · exact ((not_lt.mpr hcase) (lt_trans hlt h1)).elim
          exact ih (child (min beta0 me) mv) (some mv) (min tm (val mv)) heva
            (Or.inl ⟨hcase, le_min htm hva⟩)
        · have haev : child (min beta0 me) mv < min beta0 me := lt_min hcase hlt
          have hveq : child (min beta0 me) mv = val mv := hc3 heva haev
          have htm : child (min beta0 me) mv ≤ tm := by
            rcases hinv with ⟨h1, h2⟩ | ⟨h1, h2⟩
            · exact le_trans (le_of_lt hlt) h2
            · rw [← h2]
              exact le_of_lt hlt
          have htm2 : min tm (val mv) = child (min beta0 me) mv := by
            rw [← hveq]
            exact min_eq_right htm
          exact ih (child (min beta0 me) mv) (some mv) (min tm (val mv)) heva
            (Or.inr ⟨hcase, htm2.symm⟩)
    · simp only [if_neg hlt]
      have hevme : me ≤ child (min beta0 me) mv := le_of_not_lt hlt
      rw [if_neg (not_le.mpr hma)]
      have hbeta : min (min beta0 me) me = min beta0 me := by
        rw [min_assoc, min_self]
      rw [hbeta]
      have hva : me ≤ val mv :=
        le_trans hevme (hc2 (le_trans (min_le_right _ _) hevme))
      rcases hinv with ⟨h1, h2⟩ | ⟨h1, h2⟩
      · exact ih me b (min tm (val mv)) hma (Or.inl ⟨h1, le_min h2 hva⟩)
      · refine ih me b (min tm (val mv)) hma (Or.inr ⟨h1, ?_⟩)
        rw [← h2]
        exact (min_eq_left hva).symm

lemma km_main : ∀ (depth : Nat) (self cur : Game) (maximize : Bool)
    (alpha beta : Score) (elapsed : ℚ), alpha < beta →
    (((alphabeta self cur depth alpha beta maximize elapsed).1 ≤ alpha →
        (random_move self cur depth maximize elapsed).1 ≤
          (alphabeta self cur depth alpha beta maximize elapsed).1) ∧
     (beta ≤ (alphabeta self cur depth alpha beta maximize elapsed).1 →
        (alphabeta self cur depth alpha beta maximize elapsed).1 ≤
          (random_move self cur depth maximize elapsed).1) ∧
     (alpha < (alphabeta self cur depth alpha beta maximize elapsed).1 →
        (alphabeta self cur depth alpha beta maximize elapsed).1 < beta →
        (alphabeta self cur depth alpha beta maximize elapsed).1 =
          (random_move self cur depth maximize elapsed).1)) := by
  intro depth
  induction depth with
  | zero =>
    intro self cur maximize alpha beta elapsed hab
    have hL : leafTest self 0 elapsed := Or.inr (Or.inl rfl)
    unfold alphabeta random_move
    simp only [if_pos hL]
    exact ⟨fun _ => le_refl _, fun _ => le_refl _, fun _ _ => trivial⟩
  | succ d ih =>
    intro self cur maximize alpha beta elapsed hab
    by_cases hL : leafTest self (d + 1) elapsed
    · unfold alphabeta random_move
      simp only [if_pos hL]
      exact ⟨fun _ => le_refl _, fun _ => le_refl _, fun _ _ => trivial⟩
    · unfold alphabeta random_move
      simp only [if_neg hL]
      rcases maximize with _ | _
      · simp only [Bool.false_eq_true, if_false]
        have hchild := fun b mv (_ : b ≤ beta) (h2 : alpha < b) =>
          ih (cur.setNextPlayer Player.Defender)
            ((cur.setNextPlayer Player.Defender).perform_move mv).1 true alpha b elapsed h2
        have hkm := abMinLoop_km
          (fun b mv => (alphabeta (cur.setNextPlayer Player.Defender)
            ((cur.setNextPlayer Player.Defender).perform_move mv).1 d alpha b true elapsed).1)
          (fun mv => (random_move (cur.setNextPlayer Player.Defender)
            ((cur.setNextPlayer Player.Defender).perform_move mv).1 d true elapsed).1)
          alpha beta hab hchild
          (cur.setNextPlayer Player.Defender).generate_valid_moves ⊤ none ⊤
          (lt_of_lt_of_le hab le_top) (Or.inl ⟨le_top, le_refl _⟩)
        rw [min_eq_left le_top] at hkm
        rw [rmMinLoop_fst]
        exact hkm
      · simp only [if_true]
        have hchild := fun a mv (h1 : alpha ≤ a) (h2 : a < beta) =>
          ih (cur.setNextPlayer Player.Attacker)
            ((cur.setNextPlayer Player.Attacker).perform_move mv).1 false a beta elapsed h2
        have hkm := abMaxLoop_km
          (fun a mv => (alphabeta (cur.setNextPlayer Player.Attacker)
            ((cur.setNextPlayer Player.Attacker).perform_move mv).1 d a beta false elapsed).1)
          (fun mv => (random_move (cur.setNextPlayer Player.Attacker)
            ((cur.setNextPlayer Player.Attacker).perform_move mv).1 d false elapsed).1)
          beta alpha hab hchild
          (cur.setNextPlayer Player.Attacker).generate_valid_moves ⊥ none ⊥
          (lt_of_le_of_lt bot_le hab) (Or.inl ⟨bot_le, le_refl _⟩)
        rw [max_eq_left bot_le] at hkm
        rw [rmMaxLoop_fst]
        exact hkm

lemma intRange_length (lo hi : Int) : (intRange lo hi).length = (hi - lo).toNat := by
  unfold intRange
  rw [List.length_map, List.length_range]

lemma rect_length (d : Int) :
    ((CoordPair.from_dim d).iter_rectangle).length = d.toNat * d.toNat := by
  unfold CoordPair.from_dim CoordPair.iter_rectangle
  dsimp only
  rw [List.length_flatMap]
  have hlen : (intRange 0 (d - 1 + 1)).length = d.toNat := by
    rw [intRange_length]
    omega
  have hmap : List.map
      (List.length ∘ fun r => List.map (fun k => Coord.mk r k) (intRange 0 (d - 1 + 1)))
      (intRange 0 (d - 1 + 1)) =
      (intRange 0 (d - 1 + 1)).map (fun _ => d.toNat) := by
    apply List.map_congr_left
    intro r _
    simp only [Function.comp_apply, List.length_map, hlen]
  rw [hmap, List.map_const', List.sum_replicate, smul_eq_mul, hlen]

lemma countType_nonneg (g : Game) (p : Player) (t : UnitType) : 0 ≤ g.countType p t := by
  unfold Game.countType
  exact Int.natCast_nonneg _

lemma countType_le (g : Game) (p : Player) (t : UnitType) (hd : g.options.dim ≤ 100) :
    g.countType p t ≤ 10000 := by
  unfold Game.countType
  have h1 := List.length_filter_le
    (fun c => (match g.get c with
      | some u => decide (u.player = p ∧ u.type = t)
      | none => false))
    ((CoordPair.from_dim g.options.dim).iter_rectangle)
  have h2 := rect_length g.options.dim
  have h3 : g.options.dim.toNat ≤ 100 := by omega
  have h4 : g.options.dim.toNat * g.options.dim.toNat ≤ 10000 := by
    calc g.options.dim.toNat * g.options.dim.toNat ≤ 100 * 100 :=
          Nat.mul_le_mul h3 h3
      _ = 10000 := rfl
  omega

lemma e0_bound (g : Game) (hd : g.options.dim ≤ 100) :
    -1000000000 ≤ g.e0 ∧ g.e0 ≤ 1000000000 := by
  unfold Game.e0
  simp only [unitTypes, List.map_cons, List.map_nil, List.sum_cons, List.sum_nil, e0Values]
  have a1 := countType_nonneg g Player.Attacker UnitType.AI
  have a2 := countType_nonneg g Player.Attacker UnitType.Tech
  have a3 := countType_nonneg g Player.Attacker UnitType.Virus
  have a4 := countType_nonneg g Player.Attacker UnitType.Program
  have a5 := countType_nonneg g Player.Attacker UnitType.Firewall
  have b1 := countType_nonneg g Player.Defender UnitType.AI
  have b2 := countType_nonneg g Player.Defender UnitType.Tech
  have b3 := countType_nonneg g Player.Defender UnitType.Virus
  have b4 := countType_nonneg g Player.Defender UnitType.Program
  have b5 := countType_nonneg g Player.Defender UnitType.Firewall
  have c1 := countType_le g Player.Attacker UnitType.AI hd
  have c2 := countType_le g Player.Attacker UnitType.Tech hd
  have c3 := countType_le g Player.Attacker UnitType.Virus hd
  have c4 := countType_le g Player.Attacker UnitType.Program hd
  have c5 := countType_le g Player.Attacker UnitType.Firewall hd
  have d1 := countType_le g Player.Defender UnitType.AI hd
  have d2 := countType_le g Player.Defender UnitType.Tech hd
  have d3 := countType_le g Player.Defender UnitType.Virus hd
  have d4 := countType_le g Player.Defender UnitType.Program hd
  have d5 := countType_le g Player.Defender UnitType.Firewall hd
  omega

lemma e1_bound (g : Game) (hd : g.options.dim ≤ 100) :
    -1000000000 ≤ g.e1 ∧ g.e1 ≤ 1000000000 := by
  unfold Game.e1
  simp only [unitTypes, List.map_cons, List.map_nil, List.sum_cons, List.sum_nil, e1Values]
  have a1 := countType_nonneg g Player.Attacker UnitType.AI
  have a2 := countType_nonneg g Player.Attacker UnitType.Tech
  have a3 := countType_nonneg g Player.Attacker UnitType.Virus
  have a4 := countType_nonneg g Player.Attacker UnitType.Program
  have a5 := countType_nonneg g Player.Attacker UnitType.Firewall
  have b1 := countType_nonneg g Player.Defender UnitType.AI
  have b2 := countType_nonneg g Player.Defender UnitType.Tech
  have b3 := countType_nonneg g Player.Defender UnitType.Virus
  have b4 := countType_nonneg g Player.Defender UnitType.Program
  have b5 := countType_nonneg g Player.Defender UnitType.Firewall
  have c1 := countType_le g Player.Attacker UnitType.AI hd
  have c2 := countType_le g Player.Attacker UnitType.Tech hd
  have c3 := countType_le g Player.Attacker UnitType.Virus hd
  have c4 := countType_le g Player.Attacker UnitType.Program hd
  have c5 := countType_le g Player.Attacker UnitType.Firewall hd
  have d1 := countType_le g Player.Defender UnitType.AI hd
  have d2 := countType_le g Player.Defender UnitType.Tech hd
  have d3 := countType_le g Player.Defender UnitType.Virus hd
  have d4 := countType_le g Player.Defender UnitType.Program hd
  have d5 := countType_le g Player.Defender UnitType.Firewall hd
  omega

lemma e2_foldl_bound (g : Game)
    (hh : ∀ c u, g.get c = some u → 0 ≤ u.health ∧ u.health ≤ 9) :
    ∀ (l : List Coord) (acc : Int),
      acc - l.length * 89991 ≤ l.foldl (e2Step g) acc ∧
      l.foldl (e2Step g) acc ≤ acc + l.length * 89991 := by
  intro l
  induction l with
  | nil =>
    intro acc
    simp
  | cons c t ih =>
    intro acc
    rw [List.foldl_cons]
    have hstep : acc - 89991 ≤ e2Step g acc c ∧ e2Step g acc c ≤ acc + 89991 := by
      rcases hu : g.get c with _ | u
      · unfold e2Step
        simp only [hu]
        constructor <;> omega
      · have hb := hh c u hu
        unfold e2Step
        simp only [hu]
        split
        · split <;> omega
        · split <;> omega
    have ht := ih (e2Step g acc c)
    rw [List.length_cons]
    push_cast
    push_cast at ht
    constructor <;> omega

lemma e2_bound (g : Game) (hd : g.options.dim ≤ 100)
    (hh : ∀ c u, g.get c = some u → 0 ≤ u.health ∧ u.health ≤ 9) :
    -1000000000 ≤ g.e2 ∧ g.e2 ≤ 1000000000 := by
  unfold Game.e2
  have hfb := e2_foldl_bound g hh ((CoordPair.from_dim g.options.dim).iter_rectangle) 0
  have h2 := rect_length g.options.dim
  have h3 : g.options.dim.toNat ≤ 100 := by omega
  have h4 : g.options.dim.toNat * g.options.dim.toNat ≤ 10000 := by
    calc g.options.dim.toNat * g.options.dim.toNat ≤ 100 * 100 :=
          Nat.mul_le_mul h3 h3
      _ = 10000 := rfl
  omega

lemma e_bound {g : Game} (h : StateBounded g) :
    -1000000000 ≤ g.e ∧ g.e ≤ 1000000000 := by
  unfold Game.e
  split
  · exact e1_bound g h.2
  · split
    · exact e2_bound g h.2 h.1
    · exact e0_bound g h.2

lemma healthInv09_set {g : Game} (c : Coord) (ou : Option Unit)
    (hg : healthInv09 g) (hu : ∀ u, ou = some u → 0 ≤ u.health ∧ u.health ≤ 9) :
    healthInv09 (g.set c ou) := by
  intro c2 u2 h2
  by_cases hc : c2 = c
  · subst hc
    by_cases hv : g.is_valid_coord c2 = true
    · rw [get_set_same ou hv] at h2
      exact hu u2 h2
    · have hgg : g.set c2 ou = g := by
        unfold Game.set
        rw [if_neg hv]
      rw [hgg] at h2
      exact hg c2 u2 h2
  · rw [get_set_other ou hc] at h2
    exact hg c2 u2 h2

lemma healthInv09_mod_health {g : Game} (c : Coord) (d : Int) (hg : healthInv09 g) :
    healthInv09 (g.mod_health c d) := by
  intro c2 u2 h2
  by_cases hc : c2 = c
  · subst hc
    rw [mod_health_get_self] at h2
    rcases hu : g.get c2 with _ | u
    · rw [hu] at h2
      simp at h2
    · rw [hu] at h2
      by_cases hz : (u.mod_health d).health ≤ 0
      · simp [hz] at h2
      · simp only [hz, if_false] at h2
        have he : u2 = u.mod_health d := by
          simpa using h2.symm
        rw [he]
        exact unit_mod_health_bounds u d
  · rw [mod_health_get_other g c d hc] at h2
    exact hg c2 u2 h2

lemma healthInv09_sd_fold : ∀ (l : List Coord) (p : Game × Int), healthInv09 p.1 →
    healthInv09 ((l.foldl selfDestructStep p).1) := by
  intro l
  induction l with
  | nil => intro p h; exact h
  | cons a t ih =>
    intro p h
    rw [List.foldl_cons]
    apply ih
    unfold selfDestructStep
    split
    · exact healthInv09_mod_health _ _ h
    · exact h

lemma sd_fold_fst_eq {l : List Coord} {p : Game × Int} {q : Game × Int}
    (h : l.foldl selfDestructStep p = q) :
    (l.foldl selfDestructStep p).1 = q.1 := by rw [h]

lemma healthInv09_perform_move {g : Game} (m : CoordPair) (hg : healthInv09 g) :
    healthInv09 ((g.perform_move m).1) := by
  unfold Game.perform_move
  split
  · split
    · dsimp only
      refine healthInv09_set _ _ (healthInv09_set _ _ hg ?_) ?_
      · intro u hu
        exact hg m.src u hu
      · intro u hu
        simp at hu
    · split
      · rcases hfold : (m.src.iter_range 1).foldl selfDestructStep
            (g.mod_health m.src (-9), 0) with ⟨g2, tot⟩
        simp only [hfold]
        have := healthInv09_sd_fold (m.src.iter_range 1)
          (g.mod_health m.src (-9), 0) (healthInv09_mod_health _ _ hg)
        rw [hfold] at this
        exact this
      · split
        · split
          · dsimp only
            exact healthInv09_mod_health _ _ hg
          · dsimp only
            exact healthInv09_mod_health _ _ (healthInv09_mod_health _ _ hg)
        · exact hg
  · exact hg

lemma sd_fold_options : ∀ (l : List Coord) (p : Game × Int),
    ((l.foldl selfDestructStep p).1).options = p.1.options := by
  intro l
  induction l with
  | nil => intro p; rfl
  | cons a t ih =>
    intro p
    rw [List.foldl_cons, ih, sd_step_options]

lemma perform_move_options (g : Game) (m : CoordPair) :
    ((g.perform_move m).1).options = g.options := by
  unfold Game.perform_move
  split
  · split
    · dsimp only
      rw [set_options, set_options]
    · split
      · rcases hfold : (m.src.iter_range 1).foldl selfDestructStep
            (g.mod_health m.src (-9), 0) with ⟨g2, tot⟩
        simp only [hfold]
        have h2 := sd_fold_options (m.src.iter_range 1) (g.mod_health m.src (-9), 0)
        rw [hfold] at h2
        dsimp only at h2 ⊢
        rw [h2, mod_health_options]
      · split
        · split
          · dsimp only
            rw [mod_health_options]
          · dsimp only
            rw [mod_health_options, mod_health_options]
        · rfl
  · rfl

lemma stateBounded_perform_move {g : Game} (m : CoordPair) (h : StateBounded g) :
    StateBounded ((g.perform_move m).1) :=
  ⟨healthInv09_perform_move m h.1, by rw [perform_move_options]; exact h.2⟩

lemma stateBounded_setNextPlayer (g : Game) (p : Player) (h : StateBounded g) :
    StateBounded (g.setNextPlayer p) :=
  ⟨fun c u hu => h.1 c u hu, h.2⟩

lemma scok_abMaxLoop (child : Score → CoordPair → Score) (beta : Score)
    (hc : ∀ a mv, ScOK (child a mv)) :
    ∀ (l : List CoordPair) (alpha me : Score) (b : Option CoordPair),
      ScOK me → ScOK ((abMaxLoop child beta l alpha me b).1) := by
  intro l
  induction l with
  | nil => intro alpha me b h; exact h
  | cons mv t ih =>
    intro alpha me b h
    simp only [abMaxLoop]
    by_cases hlt : me < child alpha mv
    · simp only [if_pos hlt]
      split
      · exact hc alpha mv
      · exact ih _ _ _ (hc alpha mv)
    · simp only [if_neg hlt]
      split
      · exact h
      · exact ih _ _ _ h

lemma scok_abMinLoop (child : Score → CoordPair → Score) (alpha : Score)
    (hc : ∀ b mv, ScOK (child b mv)) :
    ∀ (l : List CoordPair) (beta me : Score) (b : Option CoordPair),
      ScOK me → ScOK ((abMinLoop child alpha l beta me b).1) := by
  intro l
  induction l with
  | nil => intro beta me b h; exact h
  | cons mv t ih =>
    intro beta me b h
    simp only [abMinLoop]
    by_cases hlt : child beta mv < me
    · simp only [if_pos hlt]
      split
      · exact hc beta mv
      · exact ih _ _ _ (hc beta mv)
    · simp only [if_neg hlt]
      split
      · exact h
      · exact ih _ _ _ h

lemma alphabeta_scok : ∀ (depth : Nat) (self cur : Game) (alpha beta : Score)
    (maximize : Bool) (elapsed : ℚ), StateBounded cur →
    ScOK ((alphabeta self cur depth alpha beta maximize elapsed).1) := by
  intro depth
  induction depth with
  | zero =>
    intro self cur alpha beta maximize elapsed hb
    have hL : leafTest self 0 elapsed := Or.inr (Or.inl rfl)
    unfold alphabeta
    rw [if_pos hL]
    exact Or.inr (Or.inr ⟨cur.e, rfl, (e_bound hb).1, (e_bound hb).2⟩)
  | succ d ih =>
    intro self cur alpha beta maximize elapsed hb
    by_cases hL : leafTest self (d + 1) elapsed
    · unfold alphabeta
      rw [if_pos hL]
      exact Or.inr (Or.inr ⟨cur.e, rfl, (e_bound hb).1, (e_bound hb).2⟩)
    · unfold alphabeta
      rw [if_neg hL]
      dsimp only
      rcases maximize with _ | _
      · simp only [Bool.false_eq_true, if_false]
        apply scok_abMinLoop
        · intro b mv
          exact ih _ _ alpha b true elapsed
            (stateBounded_perform_move mv (stateBounded_setNextPlayer cur Player.Defender hb))
        · exact Or.inr (Or.inl rfl)
      · simp only [if_true]
        apply scok_abMaxLoop
        · intro a mv
          exact ih _ _ a beta false elapsed
            (stateBounded_perform_move mv (stateBounded_setNextPlayer cur Player.Attacker hb))
        · exact Or.inl rfl

lemma ofInt_le {a b : Int} : ofInt a ≤ ofInt b ↔ a ≤ b := by
  simp [ofInt]

lemma ofInt_lt {a b : Int} : ofInt a < ofInt b ↔ a < b := by
  simp [ofInt]

/-- C2: on every board state within the documented data model (unit healths in
`[0,9]`, bounded board dimension — the program always plays `dim = 5`), for
every side to move, heuristic selection and common depth budget, if neither
search hits the wall-clock cutoff then the alpha-beta search called with the
initial bounds `MIN_HEURISTIC_SCORE`, `MAX_HEURISTIC_SCORE` returns the same
score as the plain minimax search: pruning does not change the minimax
value. -/
theorem C2_alphabeta_equals_minimax (self cur : Game) (depth : Nat) (maximize : Bool)
    (elapsed : ℚ)
    (hb : StateBounded cur)
    (ht1 : elapsed < self.options.max_time - 1/100)
    (ht2 : elapsed < cur.options.max_time - 1/100) :
    (alphabeta self cur depth (ofInt MIN_HEURISTIC_SCORE) (ofInt MAX_HEURISTIC_SCORE)
        maximize elapsed).1 =
      (random_move self cur depth maximize elapsed).1 := by
  have hab : ofInt MIN_HEURISTIC_SCORE < ofInt MAX_HEURISTIC_SCORE := by
    rw [ofInt_lt]
    norm_num [MIN_HEURISTIC_SCORE, MAX_HEURISTIC_SCORE]
  obtain ⟨k1, k2, k3⟩ := km_main depth self cur maximize _ _ elapsed hab
  have hsc := alphabeta_scok depth self cur (ofInt MIN_HEURISTIC_SCORE)
    (ofInt MAX_HEURISTIC_SCORE) maximize elapsed hb
  have hmin : MIN_HEURISTIC_SCORE = -2000000000 := rfl
  have hmax : MAX_HEURISTIC_SCORE = 2000000000 := rfl
  set r := (alphabeta self cur depth (ofInt MIN_HEURISTIC_SCORE)
    (ofInt MAX_HEURISTIC_SCORE) maximize elapsed).1 with hrdef
  by_cases h1 : r ≤ ofInt MIN_HEURISTIC_SCORE
  · have hrbot : r = ⊥ := by
      rcases hsc with h | h | ⟨n, hn, hlo, hhi⟩
      · exact h
      · rw [h] at h1
        exact absurd (top_le_iff.mp h1) (ofInt_ne_top _)
      · rw [hn, ofInt_le] at h1
        exfalso
        omega
    have hv := k1 h1
    rw [hrbot] at hv ⊢
    exact (le_bot_iff.mp hv).symm
  · by_cases h2 : ofInt MAX_HEURISTIC_SCORE ≤ r
    · have hrtop : r = ⊤ := by
        rcases hsc with h | h | ⟨n, hn, hlo, hhi⟩
        · rw [h] at h2
          exact absurd (le_bot_iff.mp h2) (ofInt_ne_bot _)
        · exact h
        · rw [hn, ofInt_le] at h2
          exfalso
          omega
      have hv := k2 h2
      rw [hrtop] at hv ⊢
      exact (top_le_iff.mp hv).symm
    · exact k3 (not_le.mp h1) (not_le.mp h2)

/-- Witness for C2 at the empty default game, depth 3, clock at 0. -/
theorem C2_alphabeta_equals_minimax_witness :
    StateBounded emptyGame ∧
    ((0 : ℚ) < emptyGame.options.max_time - 1/100) ∧
    (alphabeta emptyGame emptyGame 3 (ofInt MIN_HEURISTIC_SCORE) (ofInt MAX_HEURISTIC_SCORE)
        true 0).1 =
      (random_move emptyGame emptyGame 3 true 0).1 := by
  have hb : StateBounded emptyGame :=
    ⟨fun c u h => by simp [emptyGame, emptyBoard, Game.get] at h,
     by show (5 : Int) ≤ 100; norm_num⟩
  have ht : (0 : ℚ) < emptyGame.options.max_time - 1/100 := by
    show (0 : ℚ) < 5 - 1/100
    norm_num
  exact ⟨hb, ht, C2_alphabeta_equals_minimax emptyGame emptyGame 3 true 0 hb ht ht⟩

end AiWargame
